import Mathlib

/-!
Verification of the documentation-style linter core (`doc8/main.py`).

The development shallowly embeds the check-execution engine of `main.py`:
the per-file / per-check orchestration loop (lines 224-301), the check
registry `fetch_checks` (lines 123-139), and the configuration merge that
`main` performs after argument parsing (lines 196-203).

Observable behaviour (report-sink output, `report_iter` invocations,
per-check error-count updates) is recorded as an explicit event trace, so
that statements such as "this check's `report_iter` is never called" or
"each violation is emitted before its count is incremented" become
properties of the trace.  Object identity (Python references created by
`fetch_checks` and by `cfg.copy()`) is modelled with an explicit
allocation counter: every constructed check instance and every
configuration copy receives a fresh numeric reference.
-/

namespace Doc8

/-- A parsed file as the orchestrator consumes it (the `doc8.parser` handle
used by `main`): a filename, an extension, and the ordered line sequence
yielded by `lines_iter`. -/
structure ParsedFile where
  filename : String
  extension : String
  lines : List String
deriving DecidableEq, Repr

/-- The configuration record handed to check constructors (the `args` dict
of `main` after `paths`, `extension`, `ignore_path` and `ignore` have been
popped). -/
structure RunCfg where
  max_line_length : Int
  allow_long_titles : Bool
  sphinx : Bool
  verbose : Bool
deriving DecidableEq, Repr

/-- The shape of a check as the dispatch loop distinguishes it:
`isinstance(c, checks.ContentCheck)` (whole-file reporting),
`isinstance(c, checks.LineCheck)` (per-line reporting), or any other
object, which `main` rejects with `TypeError` (lines 285-287). -/
inductive CheckKind where
  | content (reportIter : ParsedFile → List (Nat × String × String))
  | line (reportIter : String → List (String × String))
  | unknown (descr : String)

/-- A check as the orchestrator sees it: a stable name
(`__qualname__`), the optional declared `REPORTS` set, the optional
`EXT_MATCHER` predicate (the `match` method of the compiled pattern), and
its dispatch kind. -/
structure Check where
  name : String
  reports : Option (List String)
  extMatcher : Option (String → Bool)
  kind : CheckKind

/-- A constructed check instance: the check value together with the
numeric reference of the instance itself and of the configuration object
it was constructed with (ghost fields modelling Python object identity). -/
structure InstCheck where
  instId : Nat
  cfgRef : Nat
  check : Check

/-- Modelled from the spec: the bodies and extension matchers of the five
built-in checks live in `doc8/checks.py`, which is a collaborator module
not among the sources here.  The spec (section 4.2) fixes each check's
kind and its `reports` declaration (exactly its own code); the concrete
report bodies and the optional extension matchers are collaborator-supplied
parameters collected in this record. -/
structure CheckBodies where
  validityBody : RunCfg → ParsedFile → List (Nat × String × String)
  validityMatcher : Option (String → Bool)
  trailingWhitespaceBody : RunCfg → String → List (String × String)
  trailingWhitespaceMatcher : Option (String → Bool)
  indentationNoTabBody : RunCfg → String → List (String × String)
  indentationNoTabMatcher : Option (String → Bool)
  carriageReturnBody : RunCfg → String → List (String × String)
  carriageReturnMatcher : Option (String → Bool)
  maxLineLengthBody : RunCfg → String → List (String × String)
  maxLineLengthMatcher : Option (String → Bool)

/-- Built-in check `checks.CheckValidity` (D000, whole-file validity);
kind and `reports` fixed by the spec, body supplied by the collaborator. -/
def CheckValidity (b : CheckBodies) (cfg : RunCfg) : Check :=
  { name := "CheckValidity", reports := some ["D000"],
    extMatcher := b.validityMatcher, kind := .content (b.validityBody cfg) }

/-- Built-in check `checks.CheckTrailingWhitespace` (D002, per line). -/
def CheckTrailingWhitespace (b : CheckBodies) (cfg : RunCfg) : Check :=
  { name := "CheckTrailingWhitespace", reports := some ["D002"],
    extMatcher := b.trailingWhitespaceMatcher,
    kind := .line (b.trailingWhitespaceBody cfg) }

/-- Built-in check `checks.CheckIndentationNoTab` (D003, per line). -/
def CheckIndentationNoTab (b : CheckBodies) (cfg : RunCfg) : Check :=
  { name := "CheckIndentationNoTab", reports := some ["D003"],
    extMatcher := b.indentationNoTabMatcher,
    kind := .line (b.indentationNoTabBody cfg) }

/-- Built-in check `checks.CheckCarriageReturn` (D004, per line). -/
def CheckCarriageReturn (b : CheckBodies) (cfg : RunCfg) : Check :=
  { name := "CheckCarriageReturn", reports := some ["D004"],
    extMatcher := b.carriageReturnMatcher,
    kind := .line (b.carriageReturnBody cfg) }

/-- Built-in check `checks.CheckMaxLineLength` (D001, per line). -/
def CheckMaxLineLength (b : CheckBodies) (cfg : RunCfg) : Check :=
  { name := "CheckMaxLineLength", reports := some ["D001"],
    extMatcher := b.maxLineLengthMatcher,
    kind := .line (b.maxLineLengthBody cfg) }

/-- Instantiation of the discovered plugin extensions
(`stevedore.ExtensionManager(..., invoke_on_load=True, invoke_args=(cfg.copy(),))`):
every plugin factory is applied to the configuration copy (reference
`copyRef`), each resulting object getting a fresh instance reference. -/
def allocAddons (cfg : RunCfg) (copyRef : Nat) :
    List (RunCfg → Check) → Nat → List InstCheck
  | [], _ => []
  | p :: ps, n => ⟨n, copyRef, p cfg⟩ :: allocAddons cfg copyRef ps (n + 1)

/-- Result of one `fetch_checks` call: the ordered instance list, the
reference and value of the `cfg.copy()` object handed to the plugin
manager, and the allocation counter after construction. -/
structure FetchResult where
  checks : List InstCheck
  copyRef : Nat
  copyVal : RunCfg
  nextId : Nat

/-- `fetch_checks(cfg)` (main.py lines 123-139): the fixed built-in list —
validity, trailing-whitespace, no-tab-indentation, no-carriage-return,
max-line-length, in this order, each constructed with the shared
configuration object `runCfgRef` — followed by the plugin extensions in
discovery order, each constructed with the single `cfg.copy()` made for
the extension manager.  Fresh references are drawn from counter `n`. -/
def fetch_checks (b : CheckBodies) (plugins : List (RunCfg → Check))
    (cfg : RunCfg) (runCfgRef n : Nat) : FetchResult :=
  { checks :=
      [⟨n, runCfgRef, CheckValidity b cfg⟩,
       ⟨n + 1, runCfgRef, CheckTrailingWhitespace b cfg⟩,
       ⟨n + 2, runCfgRef, CheckIndentationNoTab b cfg⟩,
       ⟨n + 3, runCfgRef, CheckCarriageReturn b cfg⟩,
       ⟨n + 4, runCfgRef, CheckMaxLineLength b cfg⟩] ++
      allocAddons cfg (n + 5) plugins (n + 6),
    copyRef := n + 5,
    copyVal := cfg,
    nextId := n + 6 + plugins.length }

/-- The check values (without ghost references) that every `fetch_checks`
call produces: the five built-ins followed by the instantiated plugins. -/
def allCheckVals (b : CheckBodies) (plugins : List (RunCfg → Check))
    (cfg : RunCfg) : List Check :=
  [CheckValidity b cfg, CheckTrailingWhitespace b cfg,
   CheckIndentationNoTab b cfg, CheckCarriageReturn b cfg,
   CheckMaxLineLength b cfg] ++ plugins.map (fun p => p cfg)

/-- Observable events of one run: a `fetch_checks` call, a `report_iter`
invocation on a whole file or on a single line (tagged with the ghost
file index and instance reference), a violation emitted to the report
sink, and an increment of a named error counter. -/
inductive Event where
  | fetch : Event
  | callContent (fileIdx instId : Nat) (name : String)
      (reports : Option (List String)) (f : ParsedFile) : Event
  | callLine (fileIdx instId : Nat) (name : String)
      (reports : Option (List String)) (lineNum : Nat) (line : String) : Event
  | emit (filename : String) (lineNum : Nat) (code : String) (msg : String) : Event
  | inc (name : String) : Event
deriving DecidableEq, Repr

/-- Mutable state of the orchestration loop: the event trace so far, the
`error_counts` dict (an association list in insertion order, as a Python
dict iterates), and the allocation counter for fresh references. -/
structure RunState where
  events : List Event
  counts : List (String × Nat)
  nextId : Nat
deriving DecidableEq, Repr

/-- Membership test on the `error_counts` dict. -/
def countsHasKey (m : List (String × Nat)) (k : String) : Bool :=
  m.any (fun p => p.1 = k)

/-- `error_counts.setdefault(check_name, 0)` (main.py line 237). -/
def countsSetdefault (m : List (String × Nat)) (k : String) : List (String × Nat) :=
  if countsHasKey m k then m else m ++ [(k, 0)]

/-- `error_counts[check_name] += 1` (main.py lines 272, 284). -/
def countsIncr (m : List (String × Nat)) (k : String) : List (String × Nat) :=
  m.map (fun p => if p.1 = k then (p.1, p.2 + 1) else p)

/-- Lookup in the `error_counts` dict (0 when absent). -/
def countsGet (m : List (String × Nat)) (k : String) : Nat :=
  ((m.find? (fun p => p.1 = k)).map (fun p => p.2)).getD 0

/-- `sum(six.itervalues(error_counts))` (main.py line 288). -/
def sumCounts (m : List (String × Nat)) : Nat :=
  (m.map (fun p => p.2)).sum

/-- Iterated increment of one key, used to state closed forms of the
dispatch loop. -/
def countsAddN (k : String) : List (String × Nat) → Nat → List (String × Nat)
  | m, 0 => m
  | m, n + 1 => countsAddN k (countsIncr m k) n

/-- The extension gate (main.py lines 238-248): skip the check when it
declares an `EXT_MATCHER` that rejects the file's extension. -/
def extSkip (c : Check) (f : ParsedFile) : Bool :=
  match c.extMatcher with
  | some m => !(m f.extension)
  | none => false

/-- The reports gate (main.py lines 249-259): skip the check when it
declares a `REPORTS` set and `REPORTS - ignoreables` is empty, i.e. every
code it could emit is globally ignored. -/
def reportsSkip (ignore : List String) (c : Check) : Bool :=
  match c.reports with
  | some rs => rs.all (fun r => ignore.contains r)
  | none => false

/-- Whether the check's kind falls outside the two dispatchable variants. -/
def isUnknownKind : CheckKind → Bool
  | .unknown _ => true
  | _ => false

/-- A check is fatal for a file when both gates pass and its kind is
neither `ContentCheck` nor `LineCheck`: the dispatch loop then raises
`TypeError` (main.py lines 285-287). -/
def checkFatal (ignore : List String) (f : ParsedFile) (c : Check) : Bool :=
  !extSkip c f && !reportsSkip ignore c && isUnknownKind c.kind

/-- The violation-consumption loop shared by both dispatch branches
(main.py lines 263-272 and 275-284): every finding whose code is in the
ignore set is discarded; every other finding is emitted to the report
sink and then the check's error count is incremented. -/
def procViolations (ignore : List String) (filename checkName : String)
    (vs : List (Nat × String × String)) (st : RunState) : RunState :=
  vs.foldl
    (fun acc v =>
      if ignore.contains v.2.1 then acc
      else
        { acc with
          events := acc.events ++
            [.emit filename v.1 v.2.1 v.2.2, .inc checkName],
          counts := countsIncr acc.counts checkName })
    st

/-- Processing of a single (file, check) pair — the body of the inner
`for c in fetch_checks(args)` loop (main.py lines 230-287): register the
check name in `error_counts`, apply the extension gate, apply the reports
gate, then dispatch by kind; an unrecognized kind raises `TypeError`. -/
def processCheck (ignore : List String) (fileIdx : Nat) (f : ParsedFile)
    (ic : InstCheck) (st : RunState) : Except String RunState :=
  let c := ic.check
  let st1 : RunState := { st with counts := countsSetdefault st.counts c.name }
  if extSkip c f then .ok st1
  else if reportsSkip ignore c then .ok st1
  else
    match c.kind with
    | .content rIter =>
        let st2 : RunState :=
          { st1 with
            events := st1.events ++ [.callContent fileIdx ic.instId c.name c.reports f] }
        .ok (procViolations ignore f.filename c.name (rIter f) st2)
    | .line rIter =>
        .ok ((f.lines.enumFrom 1).foldl
          (fun acc nl =>
            procViolations ignore f.filename c.name
              ((rIter nl.2).map (fun cm => (nl.1, cm.1, cm.2)))
              { acc with
                events := acc.events ++
                  [.callLine fileIdx ic.instId c.name c.reports nl.1 nl.2] })
          st1)
    | .unknown descr => .error ("Unknown check type: " ++ descr)

/-- The collaborators and configuration of one run, fixed before the
dispatch loop starts. -/
structure Env where
  bodies : CheckBodies
  plugins : List (RunCfg → Check)
  cfg : RunCfg
  runCfgRef : Nat
  ignore : List String

/-- Number of references allocated by one `fetch_checks` call: five
built-in instances, the configuration copy, and one per plugin. -/
def numAlloc (env : Env) : Nat := 6 + env.plugins.length

/-- Processing of a single file — one iteration of the `while files:`
loop (main.py lines 226-287): re-invoke `fetch_checks` and run every
returned check against the file. -/
def processFile (env : Env) (fileIdx : Nat) (f : ParsedFile)
    (st : RunState) : Except String RunState :=
  let fr := fetch_checks env.bodies env.plugins env.cfg env.runCfgRef st.nextId
  let st1 : RunState :=
    { st with events := st.events ++ [.fetch], nextId := fr.nextId }
  fr.checks.foldlM (fun acc ic => processCheck env.ignore fileIdx f ic acc) st1

/-- The `while files:` loop (main.py lines 226-287): files are consumed
in FIFO order; a `TypeError` from any check aborts the run. -/
def runFiles (env : Env) : Nat → List ParsedFile → RunState → Except String RunState
  | _, [], st => .ok st
  | fileIdx, f :: fs, st =>
      match processFile env fileIdx f st with
      | .error e => .error e
      | .ok st1 => runFiles env (fileIdx + 1) fs st1

/-- The printed summary block (main.py lines 289-297): separator, scanned
and ignored totals, total accumulated errors, and — only when
`error_counts` is non-empty — the per-check breakdown sorted by name. -/
def summaryLines (filesSelected filesIgnored : Nat)
    (counts : List (String × Nat)) (total : Nat) : List String :=
  let breakdown :=
    if counts.isEmpty then []
    else
      "Detailed error counts:" ::
        ((counts.map (fun p => p.1)).insertionSort (fun a b => a ≤ b)).map
          (fun k =>
            let v := countsGet counts k
            s!"    - {k} = {v}")
  ["========",
   s!"Total files scanned = {filesSelected}",
   s!"Total files ignored = {filesIgnored}",
   s!"Total accumulated errors = {total}"] ++ breakdown

/-- Outcome of a completed run: the event trace, the final
`error_counts`, the violation total, the printed summary, and the value
returned by `main` (the process exit status). -/
structure RunResult where
  events : List Event
  counts : List (String × Nat)
  totalErrors : Nat
  summary : List String
  exit : Nat
deriving DecidableEq, Repr

/-- The core of `main` (main.py lines 224-301): run every selected file
through the dispatch loop, then derive the totals, the summary and the
exit status (`1` when any violation was counted, else `0`).  The run
configuration object carries reference `env.runCfgRef`; fresh references
start right above it. -/
def runMain (env : Env) (files : List ParsedFile) (filesIgnored : Nat) :
    Except String RunResult :=
  match runFiles env 0 files ⟨[], [], env.runCfgRef + 1⟩ with
  | .error e => .error e
  | .ok st =>
      let total := sumCounts st.counts
      .ok { events := st.events, counts := st.counts, totalErrors := total,
            summary := summaryLines files.length filesIgnored st.counts total,
            exit := if total = 0 then 0 else 1 }

/-! ### Closed forms of the traces produced by the loop -/

/-- Events appended while draining one `report_iter` result: one
`emit`/`inc` pair per finding whose code is not ignored. -/
def violTrace (ignore : List String) (filename checkName : String) :
    List (Nat × String × String) → List Event
  | [] => []
  | v :: vs =>
      (if ignore.contains v.2.1 then []
       else [.emit filename v.1 v.2.1 v.2.2, .inc checkName]) ++
        violTrace ignore filename checkName vs

/-- Number of findings kept (not ignored) from one `report_iter` result. -/
def violCount (ignore : List String) (vs : List (Nat × String × String)) : Nat :=
  (vs.filter (fun v => !(ignore.contains v.2.1))).length

/-- Events appended by the per-line dispatch branch: one `callLine` per
enumerated line, followed by that line's kept findings. -/
def lineTrace (ignore : List String) (fileIdx instId : Nat)
    (checkName : String) (reports : Option (List String)) (filename : String)
    (rIter : String → List (String × String)) :
    List (Nat × String) → List Event
  | [] => []
  | nl :: nls =>
      (.callLine fileIdx instId checkName reports nl.1 nl.2 ::
        violTrace ignore filename checkName
          ((rIter nl.2).map (fun cm => (nl.1, cm.1, cm.2)))) ++
        lineTrace ignore fileIdx instId checkName reports filename rIter nls

/-- Number of kept findings of a line check over the enumerated lines. -/
def lineViolCount (ignore : List String)
    (rIter : String → List (String × String)) (nls : List (Nat × String)) : Nat :=
  (nls.map (fun nl =>
    violCount ignore ((rIter nl.2).map (fun cm => (nl.1, cm.1, cm.2))))).sum

/-- Events appended by one (file, check) pair: nothing when a gate skips
the check, otherwise the dispatch-protocol trace of its kind. -/
def checkTrace (ignore : List String) (fileIdx : Nat) (f : ParsedFile)
    (ic : InstCheck) : List Event :=
  if extSkip ic.check f then []
  else if reportsSkip ignore ic.check then []
  else
    match ic.check.kind with
    | .content rIter =>
        .callContent fileIdx ic.instId ic.check.name ic.check.reports f ::
          violTrace ignore f.filename ic.check.name (rIter f)
    | .line rIter =>
        lineTrace ignore fileIdx ic.instId ic.check.name ic.check.reports
          f.filename rIter (f.lines.enumFrom 1)
    | .unknown _ => []

/-- Number of violations one (file, check) pair contributes. -/
def checkViolCount (ignore : List String) (f : ParsedFile) (c : Check) : Nat :=
  if extSkip c f then 0
  else if reportsSkip ignore c then 0
  else
    match c.kind with
    | .content rIter => violCount ignore (rIter f)
    | .line rIter => lineViolCount ignore rIter (f.lines.enumFrom 1)
    | .unknown _ => 0

/-- Number of violations every check of a registry contributes to one file. -/
def fileViolCount (ignore : List String) (f : ParsedFile) (cs : List Check) : Nat :=
  (cs.map (fun c => checkViolCount ignore f c)).sum

/-- Total number of violations of an error-free run. -/
def runViolCount (env : Env) (files : List ParsedFile) : Nat :=
  (files.map (fun f =>
    fileViolCount env.ignore f (allCheckVals env.bodies env.plugins env.cfg))).sum

/-- Well-formedness of the `error_counts` dict: keys are pairwise
distinct, as they are for a Python dict. -/
def countsWF (m : List (String × Nat)) : Prop :=
  (m.map (fun p => p.1)).Nodup

/-- Error-count update of one (file, check) pair: register the key, then
add the kept findings. -/
def applyCheckCounts (ignore : List String) (f : ParsedFile)
    (m : List (String × Nat)) (c : Check) : List (String × Nat) :=
  countsAddN c.name (countsSetdefault m c.name) (checkViolCount ignore f c)

/-- Error-count update of one whole file. -/
def fileCounts (ignore : List String) (f : ParsedFile) (cs : List Check)
    (m : List (String × Nat)) : List (String × Nat) :=
  cs.foldl (applyCheckCounts ignore f) m

/-- Events appended while processing one file: the `fetch_checks` marker
followed by every check's trace in registry order. -/
def fileTrace (env : Env) (fileIdx n : Nat) (f : ParsedFile) : List Event :=
  Event.fetch ::
    (fetch_checks env.bodies env.plugins env.cfg env.runCfgRef n).checks.flatMap
      (checkTrace env.ignore fileIdx f)

/-- The full event trace of an error-free run. -/
def runTrace (env : Env) : Nat → Nat → List ParsedFile → List Event
  | _, _, [] => []
  | fileIdx, n, f :: fs =>
      fileTrace env fileIdx n f ++
        runTrace env (fileIdx + 1) (n + numAlloc env) fs

/-- The final `error_counts` of an error-free run. -/
def runCounts (env : Env) : List ParsedFile → List (String × Nat) → List (String × Nat)
  | [], m => m
  | f :: fs, m =>
      runCounts env fs
        (fileCounts env.ignore f (allCheckVals env.bodies env.plugins env.cfg) m)

/-! ### Trace observers -/

/-- Select the emitted violations of a trace. -/
def isEmit : Event → Bool
  | .emit _ _ _ _ => true
  | _ => false

/-- Select the `fetch_checks` markers of a trace. -/
def isFetch : Event → Bool
  | .fetch => true
  | _ => false

/-- The error code an event emits, when it is an emission. -/
def emitCode : Event → Option String
  | .emit _ _ c _ => some c
  | _ => none

/-- The declared `reports` set of the check behind a `report_iter`
invocation event. -/
def callReports : Event → Option (Option (List String))
  | .callContent _ _ _ r _ => some r
  | .callLine _ _ _ r _ _ => some r
  | _ => none

/-- The ghost (file index, instance reference) pair of a `report_iter`
invocation event. -/
def callIds : Event → Option (Nat × Nat)
  | .callContent i a _ _ _ => some (i, a)
  | .callLine i a _ _ _ _ => some (i, a)
  | _ => none

/-- Whether an event is a `report_iter` invocation. -/
def isCall (e : Event) : Bool := (callIds e).isSome

/-- The (line number, line) argument of a per-line invocation event. -/
def callLinePayload : Event → Option (Nat × String)
  | .callLine _ _ _ _ n l => some (n, l)
  | _ => none

/-- Well-formed traces: a sequence of `fetch` markers, `report_iter`
invocations, and `emit`/`inc` pairs — every counter increment follows
immediately the violation that caused it. -/
inductive GoodTrace : List Event → Prop
  | nil : GoodTrace []
  | fetch (t) : GoodTrace t → GoodTrace (Event.fetch :: t)
  | callC (i a nm rs f t) : GoodTrace t →
      GoodTrace (Event.callContent i a nm rs f :: t)
  | callL (i a nm rs n l t) : GoodTrace t →
      GoodTrace (Event.callLine i a nm rs n l :: t)
  | emitInc (fn ln cd ms nm t) : GoodTrace t →
      GoodTrace (Event.emit fn ln cd ms :: Event.inc nm :: t)

/-! ### Configuration assembly (`main.py` lines 152-203) -/

/-- Default file suffixes selected for checking. -/
def FILE_PATTERNS : List String := [".rst", ".txt"]

/-- Default maximum line length. -/
def MAX_LINE_LENGTH : Int := 79

/-- The options produced by argument parsing (after `merge_sets` has been
applied to the `--ignore` occurrences). -/
structure Args where
  ignore : List String
  ignore_path : List String
  extension : List String
  max_line_length : Int
  allow_long_titles : Bool
  sphinx : Bool
  verbose : Bool
deriving DecidableEq, Repr

/-- The argparse defaults of `main` (lines 157-191): built-in defaults of
every option before any command-line value or config-file value applies. -/
def defaultArgs : Args :=
  { ignore := [], ignore_path := [], extension := FILE_PATTERNS,
    max_line_length := MAX_LINE_LENGTH, allow_long_titles := false,
    sphinx := true, verbose := false }

/-- The dictionary `extract_config` returns: each recognized `[doc8]`
option is present exactly when the config files supply it (the
`extension` key only when its cleaned list is non-empty). -/
structure FileCfg where
  max_line_length : Option Int
  ignore : Option (List String)
  ignore_path : Option (List String)
  allow_long_titles : Option Bool
  sphinx : Option Bool
  verbose : Option Bool
  extension : Option (List String)
deriving DecidableEq, Repr

/-- Set union on the list model of Python sets. -/
def listUnion (a b : List String) : List String :=
  a ++ b.filter (fun x => !(a.contains x))

/-- The configuration merge `main` performs (lines 196-203): the ignore
sets are unioned, a config-file `sphinx` replaces the flag, config-file
`extension` and `ignore_path` entries are appended, and finally
`args.update(cfg)` overwrites every remaining option — in particular
`max_line_length`, `allow_long_titles` and `verbose` — with the
config-file value whenever the config file provides one. -/
def mergeConfig (args : Args) (cfg : FileCfg) : Args :=
  { ignore := listUnion args.ignore (cfg.ignore.getD []),
    sphinx := cfg.sphinx.getD args.sphinx,
    extension := args.extension ++ cfg.extension.getD [],
    ignore_path := args.ignore_path ++ cfg.ignore_path.getD [],
    max_line_length := cfg.max_line_length.getD args.max_line_length,
    allow_long_titles := cfg.allow_long_titles.getD args.allow_long_titles,
    verbose := cfg.verbose.getD args.verbose }

/-! ### Concrete instances used to exercise the model -/

/-- A concrete collaborator instance: every built-in body reports nothing
except the trailing-whitespace body, which flags the line `"bad "`; no
built-in declares an extension matcher. -/
def bodies0 : CheckBodies :=
  { validityBody := fun _ _ => [], validityMatcher := none,
    trailingWhitespaceBody := fun _ l =>
      if l = "bad " then [("D002", "Trailing whitespace")] else [],
    trailingWhitespaceMatcher := none,
    indentationNoTabBody := fun _ _ => [], indentationNoTabMatcher := none,
    carriageReturnBody := fun _ _ => [], carriageReturnMatcher := none,
    maxLineLengthBody := fun _ _ => [], maxLineLengthMatcher := none }

/-- A concrete configuration with the built-in defaults. -/
def cfg0 : RunCfg := ⟨79, false, true, false⟩

/-- A one-line parsed file whose single line carries trailing whitespace. -/
def f0 : ParsedFile := ⟨"a.rst", ".rst", ["bad "]⟩

/-- A parsed file with no lines. -/
def f1 : ParsedFile := ⟨"b.rst", ".rst", []⟩

/-- A run with no plugins and an empty ignore set. -/
def env0 : Env := ⟨bodies0, [], cfg0, 0, []⟩

/-- A plugin whose check declares code D100, no extension matcher, and
reports D100 on every line. -/
def plug0 : RunCfg → Check := fun _ =>
  { name := "PluginX", reports := some ["D100"], extMatcher := none,
    kind := .line (fun _ => [("D100", "plugin finding")]) }

/-- A run where every code any check declares is in the ignore set. -/
def envC8 : Env :=
  ⟨bodies0, [plug0], cfg0, 0, ["D000", "D001", "D002", "D003", "D004", "D100"]⟩

/-- A plugin delivering an object that is neither a `ContentCheck` nor a
`LineCheck`. -/
def plugUnknown : RunCfg → Check := fun _ =>
  { name := "Weird", reports := none, extMatcher := none,
    kind := .unknown "Weird" }

/-- A run whose plugin list delivers the unknown-kind object. -/
def envC5 : Env := ⟨bodies0, [plugUnknown], cfg0, 0, []⟩

/-- A line check used to exercise the dispatch protocol directly. -/
def c7rIter : String → List (String × String) := fun l =>
  if l = "bad " then [("D002", "trailing whitespace")] else []

/-- The check instance around `c7rIter`. -/
def c7check : Check :=
  { name := "L0", reports := some ["D002"], extMatcher := none,
    kind := .line c7rIter }

/-- A constructed instance of `c7check`. -/
def c7ic : InstCheck := ⟨7, 0, c7check⟩

/-- An empty run state with allocation counter 8. -/
def st0 : RunState := ⟨[], [], 8⟩

/-- A line check rejecting every extension, to exercise the extension gate. -/
def c8check : Check :=
  { name := "L1", reports := some ["D002"], extMatcher := some (fun _ => false),
    kind := .line c7rIter }

/-- A constructed instance of `c8check`. -/
def c8ic : InstCheck := ⟨9, 0, c8check⟩

/-- Outcome of the run of `env0` over no files. -/
def runResult0 : RunResult := ⟨[], [], 0, summaryLines 0 0 [] 0, 0⟩

/-- Final `error_counts` of the run of `env0` over `[f0]`. -/
def countsF0 : List (String × Nat) :=
  [("CheckValidity", 0), ("CheckTrailingWhitespace", 1),
   ("CheckIndentationNoTab", 0), ("CheckCarriageReturn", 0),
   ("CheckMaxLineLength", 0)]

/-- Event trace of the run of `env0` over `[f0]`. -/
def eventsF0 : List Event :=
  [.fetch,
   .callContent 0 1 "CheckValidity" (some ["D000"]) f0,
   .callLine 0 2 "CheckTrailingWhitespace" (some ["D002"]) 1 "bad ",
   .emit "a.rst" 1 "D002" "Trailing whitespace",
   .inc "CheckTrailingWhitespace",
   .callLine 0 3 "CheckIndentationNoTab" (some ["D003"]) 1 "bad ",
   .callLine 0 4 "CheckCarriageReturn" (some ["D004"]) 1 "bad ",
   .callLine 0 5 "CheckMaxLineLength" (some ["D001"]) 1 "bad "]

/-- Outcome of the run of `env0` over `[f0]`. -/
def runResultF0 : RunResult :=
  ⟨eventsF0, countsF0, 1, summaryLines 1 0 countsF0 1, 1⟩

/-- Final `error_counts` of the run of `env0` over `[f1, f1]`. -/
def countsF11 : List (String × Nat) :=
  [("CheckValidity", 0), ("CheckTrailingWhitespace", 0),
   ("CheckIndentationNoTab", 0), ("CheckCarriageReturn", 0),
   ("CheckMaxLineLength", 0)]

/-- Event trace of the run of `env0` over `[f1, f1]`: `fetch_checks` runs
afresh for each file, so the second file's validity check carries a fresh
instance reference. -/
def eventsF11 : List Event :=
  [.fetch,
   .callContent 0 1 "CheckValidity" (some ["D000"]) f1,
   .fetch,
   .callContent 1 7 "CheckValidity" (some ["D000"]) f1]

/-- Outcome of the run of `env0` over `[f1, f1]`. -/
def runResultF11 : RunResult :=
  ⟨eventsF11, countsF11, 0, summaryLines 2 0 countsF11 0, 0⟩

/-- Final `error_counts` of the run of `envC8` over `[f0]`. -/
def countsC8 : List (String × Nat) :=
  [("CheckValidity", 0), ("CheckTrailingWhitespace", 0),
   ("CheckIndentationNoTab", 0), ("CheckCarriageReturn", 0),
   ("CheckMaxLineLength", 0), ("PluginX", 0)]

/-- Outcome of the run of `envC8` over `[f0]`: one `fetch_checks` call and
not a single `report_iter` invocation. -/
def runResultC8 : RunResult :=
  ⟨[.fetch], countsC8, 0, summaryLines 1 0 countsC8 0, 0⟩

/-- State reached by dispatching `c7ic` on `f0` from `st0`. -/
def c7X : RunState :=
  ⟨[.callLine 0 7 "L0" (some ["D002"]) 1 "bad ",
    .emit "a.rst" 1 "D002" "trailing whitespace",
    .inc "L0"],
   [("L0", 1)], 8⟩

/-- Command-line options where the user passed `--max-line-length 100`. -/
def cliArgs0 : Args :=
  { ignore := [], ignore_path := [], extension := [".rst", ".txt"],
    max_line_length := 100, allow_long_titles := false, sphinx := true,
    verbose := false }

/-- Config-file values supplying `max-line-length = 120`,
`allow-long-titles = true` and `verbose = true`. -/
def fileCfg0 : FileCfg :=
  { max_line_length := some 120, ignore := none, ignore_path := none,
    allow_long_titles := some true, sphinx := none, verbose := some true,
    extension := none }

/-! ### Lemmas about the `error_counts` dictionary -/

theorem countsIncr_fst (m : List (String × Nat)) (k : String) :
    (countsIncr m k).map (fun p => p.1) = m.map (fun p => p.1) := by
  induction m with
  | nil => rfl
  | cons a t ih =>
      simp only [countsIncr, List.map_cons] at ih ⊢
      by_cases h : a.1 = k <;> simp [h, ih]

theorem countsHasKey_incr (m : List (String × Nat)) (k j : String) :
    countsHasKey (countsIncr m k) j = countsHasKey m j := by
  induction m with
  | nil => rfl
  | cons a t ih =>
      simp only [countsIncr, countsHasKey, List.map_cons, List.any_cons] at ih ⊢
      by_cases h : a.1 = k <;> simp [h, ih]

theorem countsIncr_of_not_hasKey (m : List (String × Nat)) (k : String)
    (h : countsHasKey m k = false) : countsIncr m k = m := by
  induction m with
  | nil => rfl
  | cons a t ih =>
      simp only [countsHasKey, List.any_cons, Bool.or_eq_false_iff] at h
      simp only [countsIncr, List.map_cons]
      have h1 : ¬(a.1 = k) := by simpa using h.1
      simp only [if_neg h1]
      have := ih (by simpa [countsHasKey] using h.2)
      simpa [countsIncr] using this

theorem countsHasKey_setdefault_self (m : List (String × Nat)) (k : String) :
    countsHasKey (countsSetdefault m k) k = true := by
  unfold countsSetdefault
  by_cases h : countsHasKey m k = true
  · rw [if_pos h]; exact h
  · rw [if_neg h]
    simp [countsHasKey, List.any_append]

theorem countsHasKey_setdefault_mono (m : List (String × Nat)) (k j : String)
    (h : countsHasKey m j = true) : countsHasKey (countsSetdefault m k) j = true := by
  unfold countsSetdefault
  by_cases hk : countsHasKey m k = true
  · rw [if_pos hk]; exact h
  · rw [if_neg hk]
    simp only [countsHasKey, List.any_append, Bool.or_eq_true]
    exact Or.inl h

theorem sumCounts_setdefault (m : List (String × Nat)) (k : String) :
    sumCounts (countsSetdefault m k) = sumCounts m := by
  unfold countsSetdefault
  by_cases h : countsHasKey m k = true
  · rw [if_pos h]
  · rw [if_neg h]
    simp [sumCounts]

theorem countsWF_setdefault (m : List (String × Nat)) (k : String)
    (h : countsWF m) : countsWF (countsSetdefault m k) := by
  unfold countsSetdefault
  by_cases hk : countsHasKey m k = true
  · rw [if_pos hk]; exact h
  · rw [if_neg hk]
    have hk2 : countsHasKey m k = false := by
      simpa using hk
    simp only [countsWF, List.map_append, List.map_cons, List.map_nil]
    rw [List.nodup_append]
    refine ⟨h, List.nodup_singleton _, ?_⟩
    intro x hx hxk
    simp only [List.mem_singleton] at hxk
    subst hxk
    simp only [countsHasKey, List.any_eq_false, decide_eq_true_eq] at hk2
    simp only [List.mem_map] at hx
    obtain ⟨p, hp, hpx⟩ := hx
    exact hk2 p hp hpx

theorem countsWF_incr (m : List (String × Nat)) (k : String)
    (h : countsWF m) : countsWF (countsIncr m k) := by
  unfold countsWF
  rw [countsIncr_fst]
  exact h

theorem sumCounts_incr (m : List (String × Nat)) (k : String)
    (hk : countsHasKey m k = true) (hwf : countsWF m) :
    sumCounts (countsIncr m k) = sumCounts m + 1 := by
  induction m with
  | nil => simp [countsHasKey] at hk
  | cons a t ih =>
      simp only [countsWF, List.map_cons, List.nodup_cons] at hwf
      by_cases h : a.1 = k
      · have ht : countsHasKey t k = false := by
          simp only [countsHasKey, List.any_eq_false, decide_eq_true_eq]
          intro p hp hpk
          exact hwf.1 (by simpa [hpk, h] using List.mem_map_of_mem (fun p => p.1) hp)
        simp only [countsIncr, List.map_cons, if_pos h]
        have := countsIncr_of_not_hasKey t k ht
        simp only [countsIncr] at this
        rw [this]
        simp [sumCounts]
        omega
      · have ht : countsHasKey t k = true := by
          simpa [countsHasKey, h] using hk
        have := ih ht hwf.2
        simp only [countsIncr, List.map_cons, if_neg h]
        simp only [countsIncr, sumCounts, List.map_cons, List.sum_cons] at this ⊢
        omega

theorem countsAddN_sum (k : String) (n : Nat) :
    ∀ (m : List (String × Nat)), countsHasKey m k = true → countsWF m →
      sumCounts (countsAddN k m n) = sumCounts m + n := by
  induction n with
  | zero => intro m _ _; simp [countsAddN]
  | succ n ih =>
      intro m hk hwf
      simp only [countsAddN]
      rw [ih (countsIncr m k) (by rw [countsHasKey_incr]; exact hk) (countsWF_incr m k hwf)]
      rw [sumCounts_incr m k hk hwf]
      omega

theorem countsAddN_hasKey (k j : String) (n : Nat) :
    ∀ (m : List (String × Nat)),
      countsHasKey (countsAddN k m n) j = countsHasKey m j := by
  induction n with
  | zero => intro m; simp [countsAddN]
  | succ n ih =>
      intro m
      simp only [countsAddN]
      rw [ih, countsHasKey_incr]

theorem countsAddN_wf (k : String) (n : Nat) :
    ∀ (m : List (String × Nat)), countsWF m → countsWF (countsAddN k m n) := by
  induction n with
  | zero => intro m h; simpa [countsAddN]
  | succ n ih =>
      intro m h
      simp only [countsAddN]
      exact ih _ (countsWF_incr m k h)

theorem applyCheckCounts_sum (ignore : List String) (f : ParsedFile)
    (m : List (String × Nat)) (c : Check) (hwf : countsWF m) :
    sumCounts (applyCheckCounts ignore f m c) = sumCounts m + checkViolCount ignore f c := by
  unfold applyCheckCounts
  rw [countsAddN_sum c.name _ _ (countsHasKey_setdefault_self m c.name)
    (countsWF_setdefault m c.name hwf)]
  rw [sumCounts_setdefault]

theorem applyCheckCounts_wf (ignore : List String) (f : ParsedFile)
    (m : List (String × Nat)) (c : Check) (hwf : countsWF m) :
    countsWF (applyCheckCounts ignore f m c) :=
  countsAddN_wf _ _ _ (countsWF_setdefault m c.name hwf)

theorem applyCheckCounts_hasKey_self (ignore : List String) (f : ParsedFile)
    (m : List (String × Nat)) (c : Check) :
    countsHasKey (applyCheckCounts ignore f m c) c.name = true := by
  unfold applyCheckCounts
  rw [countsAddN_hasKey]
  exact countsHasKey_setdefault_self m c.name

theorem applyCheckCounts_hasKey_mono (ignore : List String) (f : ParsedFile)
    (m : List (String × Nat)) (c : Check) (j : String)
    (h : countsHasKey m j = true) :
    countsHasKey (applyCheckCounts ignore f m c) j = true := by
  unfold applyCheckCounts
  rw [countsAddN_hasKey]
  exact countsHasKey_setdefault_mono m c.name j h

theorem fileCounts_sum (ignore : List String) (f : ParsedFile) :
    ∀ (cs : List Check) (m : List (String × Nat)), countsWF m →
      sumCounts (fileCounts ignore f cs m) = sumCounts m + fileViolCount ignore f cs := by
  intro cs
  induction cs with
  | nil => intro m _; simp [fileCounts, fileViolCount]
  | cons c t ih =>
      intro m hwf
      simp only [fileCounts, List.foldl_cons] at ih ⊢
      rw [ih _ (applyCheckCounts_wf ignore f m c hwf)]
      rw [applyCheckCounts_sum ignore f m c hwf]
      simp [fileViolCount]
      omega

theorem fileCounts_wf (ignore : List String) (f : ParsedFile) :
    ∀ (cs : List Check) (m : List (String × Nat)), countsWF m →
      countsWF (fileCounts ignore f cs m) := by
  intro cs
  induction cs with
  | nil => intro m h; simpa [fileCounts]
  | cons c t ih =>
      intro m hwf
      simp only [fileCounts, List.foldl_cons] at ih ⊢
      exact ih _ (applyCheckCounts_wf ignore f m c hwf)

theorem fileCounts_hasKey_mono (ignore : List String) (f : ParsedFile) :
    ∀ (cs : List Check) (m : List (String × Nat)) (j : String),
      countsHasKey m j = true → countsHasKey (fileCounts ignore f cs m) j = true := by
  intro cs
  induction cs with
  | nil => intro m j h; simpa [fileCounts]
  | cons c t ih =>
      intro m j h
      simp only [fileCounts, List.foldl_cons] at ih ⊢
      exact ih _ _ (applyCheckCounts_hasKey_mono ignore f m c j h)

theorem fileCounts_hasKey_self (ignore : List String) (f : ParsedFile) :
    ∀ (cs : List Check) (m : List (String × Nat)) (c : Check), c ∈ cs →
      countsHasKey (fileCounts ignore f cs m) c.name = true := by
  intro cs
  induction cs with
  | nil => intro m c h; simp at h
  | cons c0 t ih =>
      intro m c hc
      rcases List.mem_cons.mp hc with h | h
      · subst h
        simp only [fileCounts, List.foldl_cons]
        exact fileCounts_hasKey_mono ignore f t _ _
          (applyCheckCounts_hasKey_self ignore f m c)
      · simp only [fileCounts, List.foldl_cons]
        exact ih _ c h

theorem runCounts_sum (env : Env) :
    ∀ (files : List ParsedFile) (m : List (String × Nat)), countsWF m →
      sumCounts (runCounts env files m) = sumCounts m + runViolCount env files := by
  intro files
  induction files with
  | nil => intro m _; simp [runCounts, runViolCount]
  | cons f fs ih =>
      intro m hwf
      simp only [runCounts] at ih ⊢
      rw [ih _ (fileCounts_wf _ _ _ _ hwf)]
      rw [fileCounts_sum _ _ _ _ hwf]
      simp [runViolCount]
      omega

theorem runCounts_wf (env : Env) :
    ∀ (files : List ParsedFile) (m : List (String × Nat)), countsWF m →
      countsWF (runCounts env files m) := by
  intro files
  induction files with
  | nil => intro m h; simpa [runCounts]
  | cons f fs ih =>
      intro m hwf
      simp only [runCounts] at ih ⊢
      exact ih _ (fileCounts_wf _ _ _ _ hwf)

theorem runCounts_hasKey_mono (env : Env) :
    ∀ (files : List ParsedFile) (m : List (String × Nat)) (j : String),
      countsHasKey m j = true → countsHasKey (runCounts env files m) j = true := by
  intro files
  induction files with
  | nil => intro m j h; simpa [runCounts]
  | cons f fs ih =>
      intro m j h
      simp only [runCounts] at ih ⊢
      exact ih _ _ (fileCounts_hasKey_mono _ _ _ _ _ h)

theorem runCounts_hasKey (env : Env) (f : ParsedFile) (fs : List ParsedFile)
    (m : List (String × Nat)) (c : Check)
    (hc : c ∈ allCheckVals env.bodies env.plugins env.cfg) :
    countsHasKey (runCounts env (f :: fs) m) c.name = true := by
  simp only [runCounts]
  exact runCounts_hasKey_mono env fs _ _ (fileCounts_hasKey_self _ _ _ _ _ hc)

/-! ### Lemmas about the check registry -/

theorem allocAddons_map_check (cfg : RunCfg) (copyRef : Nat) :
    ∀ (ps : List (RunCfg → Check)) (n : Nat),
      (allocAddons cfg copyRef ps n).map (fun ic => ic.check) =
        ps.map (fun p => p cfg) := by
  intro ps
  induction ps with
  | nil => intro n; rfl
  | cons p t ih =>
      intro n
      simp only [allocAddons, List.map_cons]
      rw [ih]

theorem allocAddons_cfgRef (cfg : RunCfg) (copyRef : Nat) :
    ∀ (ps : List (RunCfg → Check)) (n : Nat),
      ∀ ic ∈ allocAddons cfg copyRef ps n, ic.cfgRef = copyRef := by
  intro ps
  induction ps with
  | nil => intro n ic h; simp [allocAddons] at h
  | cons p t ih =>
      intro n ic h
      rcases List.mem_cons.mp h with h1 | h1
      · subst h1; rfl
      · exact ih (n + 1) ic h1

theorem allocAddons_instId_range (cfg : RunCfg) (copyRef : Nat) :
    ∀ (ps : List (RunCfg → Check)) (n : Nat),
      ∀ ic ∈ allocAddons cfg copyRef ps n,
        n ≤ ic.instId ∧ ic.instId < n + ps.length := by
  intro ps
  induction ps with
  | nil => intro n ic h; simp [allocAddons] at h
  | cons p t ih =>
      intro n ic h
      rcases List.mem_cons.mp h with h1 | h1
      · subst h1; simp
      · have := ih (n + 1) ic h1
        simp only [List.length_cons]
        omega

theorem fetch_checks_map_check (b : CheckBodies) (plugins : List (RunCfg → Check))
    (cfg : RunCfg) (runCfgRef n : Nat) :
    (fetch_checks b plugins cfg runCfgRef n).checks.map (fun ic => ic.check) =
      allCheckVals b plugins cfg := by
  simp only [fetch_checks, allCheckVals, List.map_append, List.map_cons, List.map_nil]
  rw [allocAddons_map_check]

theorem fetch_checks_instId_range (b : CheckBodies) (plugins : List (RunCfg → Check))
    (cfg : RunCfg) (runCfgRef n : Nat) :
    ∀ ic ∈ (fetch_checks b plugins cfg runCfgRef n).checks,
      n ≤ ic.instId ∧ ic.instId < n + 6 + plugins.length := by
  intro ic h
  simp only [fetch_checks, List.mem_append] at h
  rcases h with h | h
  · fin_cases h <;> simp <;> omega
  · have := allocAddons_instId_range cfg (n + 5) plugins (n + 6) ic h
    omega

theorem fetch_checks_nextId (env : Env) (n : Nat) :
    (fetch_checks env.bodies env.plugins env.cfg env.runCfgRef n).nextId =
      n + numAlloc env := by
  simp only [fetch_checks, numAlloc]
  omega

/-! ### Closed form of the violation-consumption loop -/

theorem countsAddN_add (k : String) (a : Nat) :
    ∀ (m : List (String × Nat)) (b : Nat),
      countsAddN k (countsAddN k m a) b = countsAddN k m (a + b) := by
  induction a with
  | zero => intro m b; simp [countsAddN]
  | succ a ih =>
      intro m b
      have h1 : a + 1 + b = (a + b) + 1 := by omega
      rw [h1]
      simp only [countsAddN]
      exact ih (countsIncr m k) b

theorem procViolations_eq (ignore : List String) (fn nm : String) :
    ∀ (vs : List (Nat × String × String)) (st : RunState),
      procViolations ignore fn nm vs st =
        ⟨st.events ++ violTrace ignore fn nm vs,
         countsAddN nm st.counts (violCount ignore vs), st.nextId⟩ := by
  intro vs
  induction vs with
  | nil =>
      intro st
      simp [procViolations, violTrace, violCount, countsAddN]
  | cons v t ih =>
      intro st
      by_cases hc : v.2.1 ∈ ignore
      · have hstep : procViolations ignore fn nm (v :: t) st =
            procViolations ignore fn nm t st := by
          simp [procViolations, List.foldl_cons, hc]
        rw [hstep, ih]
        simp [violTrace, violCount, List.filter_cons, hc]
      · have hstep : procViolations ignore fn nm (v :: t) st =
            procViolations ignore fn nm t
              ⟨st.events ++ [.emit fn v.1 v.2.1 v.2.2, .inc nm],
               countsIncr st.counts nm, st.nextId⟩ := by
          simp [procViolations, List.foldl_cons, hc]
        rw [hstep, ih]
        simp only [RunState.mk.injEq]
        refine ⟨by simp [violTrace, hc], ?_, trivial⟩
        have hvc : violCount ignore (v :: t) = violCount ignore t + 1 := by
          simp [violCount, List.filter_cons, hc]
        rw [hvc]
        simp only [countsAddN]

theorem lineLoop_eq (ignore : List String) (fileIdx iid : Nat) (nm : String)
    (rs : Option (List String)) (fn : String)
    (rIter : String → List (String × String)) :
    ∀ (nls : List (Nat × String)) (st : RunState),
      nls.foldl
        (fun acc nl =>
          procViolations ignore fn nm
            ((rIter nl.2).map (fun cm => (nl.1, cm.1, cm.2)))
            { acc with
              events := acc.events ++
                [.callLine fileIdx iid nm rs nl.1 nl.2] }) st =
        ⟨st.events ++ lineTrace ignore fileIdx iid nm rs fn rIter nls,
         countsAddN nm st.counts (lineViolCount ignore rIter nls), st.nextId⟩ := by
  intro nls
  induction nls with
  | nil =>
      intro st
      simp [lineTrace, lineViolCount, countsAddN]
  | cons nl t ih =>
      intro st
      rw [List.foldl_cons, procViolations_eq, ih]
      simp only [RunState.mk.injEq]
      refine ⟨?_, ?_, trivial⟩
      · simp [lineTrace, List.append_assoc]
      · rw [countsAddN_add]
        congr 1

/-! ### Closed form of the per-check and per-file processing -/

theorem processCheck_ok (ignore : List String) (fileIdx : Nat) (f : ParsedFile)
    (ic : InstCheck) (st : RunState)
    (h : checkFatal ignore f ic.check = false) :
    processCheck ignore fileIdx f ic st =
      .ok ⟨st.events ++ checkTrace ignore fileIdx f ic,
           applyCheckCounts ignore f st.counts ic.check, st.nextId⟩ := by
  by_cases hext : extSkip ic.check f = true
  · simp [processCheck, checkTrace, applyCheckCounts, checkViolCount, hext, countsAddN]
  · have hext2 : extSkip ic.check f = false := by simpa using hext
    by_cases hrep : reportsSkip ignore ic.check = true
    · simp [processCheck, checkTrace, applyCheckCounts, checkViolCount, hext2, hrep,
        countsAddN]
    · have hrep2 : reportsSkip ignore ic.check = false := by simpa using hrep
      cases hk : ic.check.kind with
      | content rIter =>
          simp [processCheck, checkTrace, applyCheckCounts, checkViolCount,
            hext2, hrep2, hk, procViolations_eq, List.append_assoc]
      | line rIter =>
          simp [processCheck, checkTrace, applyCheckCounts, checkViolCount,
            hext2, hrep2, hk, lineLoop_eq]
      | unknown d =>
          exfalso
          simp [checkFatal, hext2, hrep2, hk, isUnknownKind] at h

theorem processCheck_err (ignore : List String) (fileIdx : Nat) (f : ParsedFile)
    (ic : InstCheck) (st : RunState) (d : String)
    (h1 : extSkip ic.check f = false) (h2 : reportsSkip ignore ic.check = false)
    (hk : ic.check.kind = .unknown d) :
    processCheck ignore fileIdx f ic st = .error ("Unknown check type: " ++ d) := by
  simp [processCheck, h1, h2, hk]

theorem checksLoop_ok (ignore : List String) (fileIdx : Nat) (f : ParsedFile) :
    ∀ (l : List InstCheck) (st : RunState),
      (∀ ic ∈ l, checkFatal ignore f ic.check = false) →
      l.foldlM (fun acc ic => processCheck ignore fileIdx f ic acc) st =
        .ok ⟨st.events ++ l.flatMap (checkTrace ignore fileIdx f),
             (l.map (fun ic => ic.check)).foldl (fun m c => applyCheckCounts ignore f m c)
               st.counts,
             st.nextId⟩ := by
  intro l
  induction l with
  | nil =>
      intro st _
      simp only [List.foldlM_nil, List.flatMap_nil, List.append_nil, List.map_nil,
        List.foldl_nil]
      rfl
  | cons a t ih =>
      intro st hok
      rw [List.foldlM_cons]
      rw [processCheck_ok ignore fileIdx f a st (hok a (List.mem_cons_self a t))]
      show t.foldlM (fun acc ic => processCheck ignore fileIdx f ic acc) _ = _
      rw [ih _ (fun ic hic => hok ic (List.mem_cons_of_mem a hic))]
      simp [List.append_assoc]

theorem processFile_ok (env : Env) (fileIdx : Nat) (f : ParsedFile) (st : RunState)
    (hok : ∀ c ∈ allCheckVals env.bodies env.plugins env.cfg,
      checkFatal env.ignore f c = false) :
    processFile env fileIdx f st =
      .ok ⟨st.events ++ fileTrace env fileIdx st.nextId f,
           fileCounts env.ignore f (allCheckVals env.bodies env.plugins env.cfg)
             st.counts,
           st.nextId + numAlloc env⟩ := by
  have hok2 : ∀ ic ∈ (fetch_checks env.bodies env.plugins env.cfg env.runCfgRef
      st.nextId).checks, checkFatal env.ignore f ic.check = false := by
    intro ic hic
    apply hok
    rw [← fetch_checks_map_check env.bodies env.plugins env.cfg env.runCfgRef st.nextId]
    exact List.mem_map_of_mem _ hic
  simp only [processFile]
  rw [checksLoop_ok env.ignore fileIdx f _ _ hok2]
  rw [fetch_checks_map_check, fetch_checks_nextId]
  simp [fileTrace, fileCounts, List.append_assoc]

theorem runFiles_cons_ok (env : Env) (fileIdx : Nat) (f : ParsedFile)
    (fs : List ParsedFile) (st X : RunState)
    (h : processFile env fileIdx f st = .ok X) :
    runFiles env fileIdx (f :: fs) st = runFiles env (fileIdx + 1) fs X := by
  simp [runFiles, h]

theorem runFiles_cons_err (env : Env) (fileIdx : Nat) (f : ParsedFile)
    (fs : List ParsedFile) (st : RunState) (e : String)
    (h : processFile env fileIdx f st = .error e) :
    runFiles env fileIdx (f :: fs) st = .error e := by
  simp [runFiles, h]

theorem runFiles_ok (env : Env) :
    ∀ (files : List ParsedFile) (fileIdx : Nat) (st : RunState),
      (∀ f ∈ files, ∀ c ∈ allCheckVals env.bodies env.plugins env.cfg,
        checkFatal env.ignore f c = false) →
      runFiles env fileIdx files st =
        .ok ⟨st.events ++ runTrace env fileIdx st.nextId files,
             runCounts env files st.counts,
             st.nextId + files.length * numAlloc env⟩ := by
  intro files
  induction files with
  | nil =>
      intro fileIdx st _
      simp [runFiles, runTrace, runCounts]
  | cons f fs ih =>
      intro fileIdx st hok
      rw [runFiles_cons_ok env fileIdx f fs st _
        (processFile_ok env fileIdx f st (hok f (List.mem_cons_self f fs)))]
      rw [ih (fileIdx + 1) _ (fun g hg => hok g (List.mem_cons_of_mem f hg))]
      simp only [Except.ok.injEq, RunState.mk.injEq]
      refine ⟨?_, rfl, ?_⟩
      · simp [runTrace, List.append_assoc]
      · simp only [runCounts, List.length_cons]
        ring

/-! ### Error propagation: an unknown check kind aborts the run -/

theorem checksLoop_err (ignore : List String) (fileIdx : Nat) (f : ParsedFile) :
    ∀ (l : List InstCheck),
      (∃ ic ∈ l, ∀ st, ∃ e, processCheck ignore fileIdx f ic st = .error e) →
      ∀ st, ∃ e,
        l.foldlM (fun acc ic => processCheck ignore fileIdx f ic acc) st = .error e := by
  intro l
  induction l with
  | nil =>
      intro h st
      obtain ⟨ic, hic, _⟩ := h
      simp at hic
  | cons a t ih =>
      intro h st
      obtain ⟨ic, hic, herr⟩ := h
      rcases List.mem_cons.mp hic with h1 | h1
      · subst h1
        obtain ⟨e, he⟩ := herr st
        exact ⟨e, by rw [List.foldlM_cons, he]; rfl⟩
      · cases hpc : processCheck ignore fileIdx f a st with
        | error e => exact ⟨e, by rw [List.foldlM_cons, hpc]; rfl⟩
        | ok st2 =>
            obtain ⟨e, he⟩ := ih ⟨ic, h1, herr⟩ st2
            exact ⟨e, by rw [List.foldlM_cons, hpc]; exact he⟩

theorem processFile_err (env : Env) (fileIdx : Nat) (f : ParsedFile)
    (hbad : ∃ c ∈ allCheckVals env.bodies env.plugins env.cfg,
      checkFatal env.ignore f c = true) :
    ∀ st, ∃ e, processFile env fileIdx f st = .error e := by
  intro st
  obtain ⟨c, hc, hfatal⟩ := hbad
  have hmem : c ∈ (fetch_checks env.bodies env.plugins env.cfg env.runCfgRef
      st.nextId).checks.map (fun ic => ic.check) := by
    rw [fetch_checks_map_check]
    exact hc
  obtain ⟨ic, hic, hcc⟩ := List.mem_map.mp hmem
  subst hcc
  simp only [checkFatal, Bool.and_eq_true, Bool.not_eq_true'] at hfatal
  obtain ⟨⟨hext, hrep⟩, hunk⟩ := hfatal
  have hker : ∃ d, ic.check.kind = CheckKind.unknown d := by
    cases hk : ic.check.kind with
    | content r => rw [hk] at hunk; simp [isUnknownKind] at hunk
    | line r => rw [hk] at hunk; simp [isUnknownKind] at hunk
    | unknown d => exact ⟨d, rfl⟩
  obtain ⟨d, hd⟩ := hker
  simp only [processFile]
  exact checksLoop_err env.ignore fileIdx f _
    ⟨ic, hic, fun s => ⟨_, processCheck_err env.ignore fileIdx f ic s d hext hrep hd⟩⟩ _

theorem runFiles_err (env : Env) :
    ∀ (files : List ParsedFile),
      (∃ f ∈ files, ∃ c ∈ allCheckVals env.bodies env.plugins env.cfg,
        checkFatal env.ignore f c = true) →
      ∀ (fileIdx : Nat) (st : RunState),
        ∃ e, runFiles env fileIdx files st = .error e := by
  intro files
  induction files with
  | nil =>
      intro h fileIdx st
      obtain ⟨f, hf, _⟩ := h
      simp at hf
  | cons f fs ih =>
      intro h fileIdx st
      by_cases hcur : ∃ c ∈ allCheckVals env.bodies env.plugins env.cfg,
        checkFatal env.ignore f c = true
      · obtain ⟨e, he⟩ := processFile_err env fileIdx f hcur st
        exact ⟨e, runFiles_cons_err env fileIdx f fs st e he⟩
      · have hclean : ∀ c ∈ allCheckVals env.bodies env.plugins env.cfg,
            checkFatal env.ignore f c = false := by
          intro c hc
          by_contra hcc
          exact hcur ⟨c, hc, by simpa using hcc⟩
        have htail : ∃ g ∈ fs, ∃ c ∈ allCheckVals env.bodies env.plugins env.cfg,
            checkFatal env.ignore g c = true := by
          obtain ⟨g, hg, hrest⟩ := h
          rcases List.mem_cons.mp hg with h1 | h1
          · exact absurd hrest (h1 ▸ hcur)
          · exact ⟨g, h1, hrest⟩
        obtain ⟨e, he⟩ := ih htail (fileIdx + 1)
          ⟨st.events ++ fileTrace env fileIdx st.nextId f,
           fileCounts env.ignore f (allCheckVals env.bodies env.plugins env.cfg)
             st.counts,
           st.nextId + numAlloc env⟩
        exact ⟨e, by
          rw [runFiles_cons_ok env fileIdx f fs st _
            (processFile_ok env fileIdx f st hclean)]
          exact he⟩

theorem runMain_of_runFiles_ok (env : Env) (files : List ParsedFile) (fi : Nat)
    (st : RunState)
    (h : runFiles env 0 files ⟨[], [], env.runCfgRef + 1⟩ = .ok st) :
    runMain env files fi =
      .ok ⟨st.events, st.counts, sumCounts st.counts,
           summaryLines files.length fi st.counts (sumCounts st.counts),
           if sumCounts st.counts = 0 then 0 else 1⟩ := by
  simp [runMain, h]

theorem runMain_of_runFiles_err (env : Env) (files : List ParsedFile) (fi : Nat)
    (e : String)
    (h : runFiles env 0 files ⟨[], [], env.runCfgRef + 1⟩ = .error e) :
    runMain env files fi = .error e := by
  simp [runMain, h]

theorem runMain_ok_nofatal (env : Env) (files : List ParsedFile) (fi : Nat)
    (r : RunResult) (h : runMain env files fi = .ok r) :
    ∀ f ∈ files, ∀ c ∈ allCheckVals env.bodies env.plugins env.cfg,
      checkFatal env.ignore f c = false := by
  intro f hf c hc
  by_contra hcc
  have hbad : ∃ f ∈ files, ∃ c ∈ allCheckVals env.bodies env.plugins env.cfg,
      checkFatal env.ignore f c = true := ⟨f, hf, c, hc, by simpa using hcc⟩
  obtain ⟨e, he⟩ := runFiles_err env files hbad 0 ⟨[], [], env.runCfgRef + 1⟩
  rw [runMain_of_runFiles_err env files fi e he] at h
  exact absurd h (by simp)

theorem runMain_char (env : Env) (files : List ParsedFile) (fi : Nat)
    (r : RunResult) (h : runMain env files fi = .ok r) :
    r.events = runTrace env 0 (env.runCfgRef + 1) files ∧
    r.counts = runCounts env files [] ∧
    r.totalErrors = sumCounts (runCounts env files []) ∧
    r.summary = summaryLines files.length fi (runCounts env files [])
      (sumCounts (runCounts env files [])) ∧
    r.exit = (if sumCounts (runCounts env files []) = 0 then 0 else 1) := by
  have hnf := runMain_ok_nofatal env files fi r h
  have hrf := runFiles_ok env files 0 ⟨[], [], env.runCfgRef + 1⟩ hnf
  rw [runMain_of_runFiles_ok env files fi _ hrf] at h
  simp only [Except.ok.injEq] at h
  subst h
  simp

/-! ### Shape of the emitted traces -/

theorem violTrace_mem (ignore : List String) (fn nm : String) :
    ∀ (vs : List (Nat × String × String)) (e : Event), e ∈ violTrace ignore fn nm vs →
      (∃ ln cd ms, e = .emit fn ln cd ms ∧ ignore.contains cd = false ∧
        (ln, cd, ms) ∈ vs) ∨ e = .inc nm := by
  intro vs
  induction vs with
  | nil => intro e he; simp [violTrace] at he
  | cons v t ih =>
      intro e he
      simp only [violTrace] at he
      rcases List.mem_append.mp he with h1 | h1
      · by_cases hc : ignore.contains v.2.1 = true
        · rw [if_pos hc] at h1
          simp at h1
        · have hc2 : ignore.contains v.2.1 = false := by simpa using hc
          rw [if_neg hc] at h1
          rcases List.mem_cons.mp h1 with h2 | h2
          · subst h2
            exact Or.inl ⟨v.1, v.2.1, v.2.2, rfl, hc2, List.mem_cons_self _ _⟩
          · simp only [List.mem_singleton] at h2
            subst h2
            exact Or.inr rfl
      · rcases ih e h1 with ⟨ln, cd, ms, h2, h3, h4⟩ | h2
        · exact Or.inl ⟨ln, cd, ms, h2, h3, List.mem_cons_of_mem _ h4⟩
        · exact Or.inr h2

theorem lineTrace_mem (ignore : List String) (fileIdx iid : Nat) (nm : String)
    (rs : Option (List String)) (fn : String)
    (rIter : String → List (String × String)) :
    ∀ (nls : List (Nat × String)) (e : Event),
      e ∈ lineTrace ignore fileIdx iid nm rs fn rIter nls →
      (∃ n l, (n, l) ∈ nls ∧ e = .callLine fileIdx iid nm rs n l) ∨
      (∃ n l cd ms, (n, l) ∈ nls ∧ (cd, ms) ∈ rIter l ∧
        ignore.contains cd = false ∧ e = .emit fn n cd ms) ∨
      e = .inc nm := by
  intro nls
  induction nls with
  | nil => intro e he; simp [lineTrace] at he
  | cons nl t ih =>
      intro e he
      simp only [lineTrace, List.cons_append] at he
      rcases List.mem_cons.mp he with h1 | h1
      · subst h1
        exact Or.inl ⟨nl.1, nl.2, List.mem_cons_self _ _, rfl⟩
      · rcases List.mem_append.mp h1 with h2 | h2
        · rcases violTrace_mem ignore fn nm _ e h2 with ⟨ln, cd, ms, h3, h4, h5⟩ | h3
          · obtain ⟨cm, hcm, heq⟩ := List.mem_map.mp h5
            have h6 : nl.1 = ln ∧ cm.1 = cd ∧ cm.2 = ms := by
              simpa [Prod.ext_iff] using heq
            refine Or.inr (Or.inl ⟨nl.1, nl.2, cd, ms, List.mem_cons_self _ _, ?_, h4, ?_⟩)
            · have hcmeq : cm = (cd, ms) := Prod.ext h6.2.1 h6.2.2
              exact hcmeq ▸ hcm
            · rw [h3, ← h6.1]
          · exact Or.inr (Or.inr h3)
        · rcases ih e h2 with ⟨n, l, h3, h4⟩ | ⟨n, l, cd, ms, h3, h4, h5, h6⟩ | h3
          · exact Or.inl ⟨n, l, List.mem_cons_of_mem _ h3, h4⟩
          · exact Or.inr (Or.inl ⟨n, l, cd, ms, List.mem_cons_of_mem _ h3, h4, h5, h6⟩)
          · exact Or.inr (Or.inr h3)

theorem checkTrace_mem (ignore : List String) (fileIdx : Nat) (f : ParsedFile)
    (ic : InstCheck) (e : Event) (he : e ∈ checkTrace ignore fileIdx f ic) :
    extSkip ic.check f = false ∧ reportsSkip ignore ic.check = false ∧
    ((callIds e = some (fileIdx, ic.instId) ∧ callReports e = some ic.check.reports) ∨
     (∃ cd, emitCode e = some cd ∧ ignore.contains cd = false) ∨
     e = .inc ic.check.name) := by
  unfold checkTrace at he
  by_cases hext : extSkip ic.check f = true
  · rw [if_pos hext] at he
    simp at he
  · have hext2 : extSkip ic.check f = false := by simpa using hext
    rw [if_neg hext] at he
    by_cases hrep : reportsSkip ignore ic.check = true
    · rw [if_pos hrep] at he
      simp at he
    · have hrep2 : reportsSkip ignore ic.check = false := by simpa using hrep
      rw [if_neg hrep] at he
      refine ⟨hext2, hrep2, ?_⟩
      cases hk : ic.check.kind with
      | content rIter =>
          rw [hk] at he
          rcases List.mem_cons.mp he with h1 | h1
          · subst h1
            exact Or.inl ⟨rfl, rfl⟩
          · rcases violTrace_mem ignore f.filename ic.check.name _ e h1 with
              ⟨ln, cd, ms, h2, h3, _⟩ | h2
            · exact Or.inr (Or.inl ⟨cd, by rw [h2]; rfl, h3⟩)
            · exact Or.inr (Or.inr h2)
      | line rIter =>
          rw [hk] at he
          rcases lineTrace_mem ignore fileIdx ic.instId ic.check.name
              ic.check.reports f.filename rIter _ e he with
            ⟨n, l, _, h2⟩ | ⟨n, l, cd, ms, _, _, h3, h4⟩ | h2
          · subst h2
            exact Or.inl ⟨rfl, rfl⟩
          · exact Or.inr (Or.inl ⟨cd, by rw [h4]; rfl, h3⟩)
          · exact Or.inr (Or.inr h2)
      | unknown d =>
          rw [hk] at he
          simp at he

theorem checkTrace_not_fetch (ignore : List String) (fileIdx : Nat) (f : ParsedFile)
    (ic : InstCheck) (e : Event) (he : e ∈ checkTrace ignore fileIdx f ic) :
    isFetch e = false := by
  rcases (checkTrace_mem ignore fileIdx f ic e he).2.2 with ⟨h1, _⟩ | ⟨cd, h1, _⟩ | h1
  · cases e <;> simp_all [isFetch, callIds]
  · cases e <;> simp_all [isFetch, emitCode]
  · subst h1; rfl

/-! ### Counting violations in the traces -/

theorem violTrace_countP_emit (ignore : List String) (fn nm : String) :
    ∀ (vs : List (Nat × String × String)),
      (violTrace ignore fn nm vs).countP isEmit = violCount ignore vs := by
  intro vs
  induction vs with
  | nil => simp [violTrace, violCount]
  | cons v t ih =>
      by_cases hc : ignore.contains v.2.1 = true
      · have hm : v.2.1 ∈ ignore := by simpa using hc
        simp only [violTrace, if_pos hc, List.nil_append, ih]
        simp [violCount, List.filter_cons, hm]
      · have hm : ¬v.2.1 ∈ ignore := by simpa using hc
        simp only [violTrace, if_neg hc, List.countP_append, ih, List.countP_cons]
        simp [violCount, List.filter_cons, hm, isEmit]
        omega

theorem lineTrace_countP_emit (ignore : List String) (fileIdx iid : Nat)
    (nm : String) (rs : Option (List String)) (fn : String)
    (rIter : String → List (String × String)) :
    ∀ (nls : List (Nat × String)),
      (lineTrace ignore fileIdx iid nm rs fn rIter nls).countP isEmit =
        lineViolCount ignore rIter nls := by
  intro nls
  induction nls with
  | nil => simp [lineTrace, lineViolCount]
  | cons nl t ih =>
      simp only [lineTrace, List.cons_append, List.countP_cons, List.countP_append,
        violTrace_countP_emit, ih]
      simp [lineViolCount, isEmit]

theorem checkTrace_countP_emit (ignore : List String) (fileIdx : Nat)
    (f : ParsedFile) (ic : InstCheck) :
    (checkTrace ignore fileIdx f ic).countP isEmit =
      checkViolCount ignore f ic.check := by
  unfold checkTrace checkViolCount
  by_cases hext : extSkip ic.check f = true
  · rw [if_pos hext, if_pos hext]
    rfl
  · rw [if_neg hext, if_neg hext]
    by_cases hrep : reportsSkip ignore ic.check = true
    · rw [if_pos hrep, if_pos hrep]
      rfl
    · rw [if_neg hrep, if_neg hrep]
      cases ic.check.kind with
      | content rIter =>
          simp [List.countP_cons, violTrace_countP_emit, isEmit]
      | line rIter => exact lineTrace_countP_emit _ _ _ _ _ _ _ _
      | unknown d => rfl

theorem checksFlatMap_countP_emit (ignore : List String) (fileIdx : Nat)
    (f : ParsedFile) :
    ∀ (l : List InstCheck),
      (l.flatMap (checkTrace ignore fileIdx f)).countP isEmit =
        fileViolCount ignore f (l.map (fun ic => ic.check)) := by
  intro l
  induction l with
  | nil => simp [fileViolCount]
  | cons a t ih =>
      simp only [List.flatMap_cons, List.countP_append, checkTrace_countP_emit, ih]
      simp [fileViolCount]

theorem fileTrace_countP_emit (env : Env) (fileIdx n : Nat) (f : ParsedFile) :
    (fileTrace env fileIdx n f).countP isEmit =
      fileViolCount env.ignore f (allCheckVals env.bodies env.plugins env.cfg) := by
  unfold fileTrace
  rw [List.countP_cons]
  rw [checksFlatMap_countP_emit, fetch_checks_map_check]
  simp [isFetch, isEmit]

theorem runTrace_countP_emit (env : Env) :
    ∀ (files : List ParsedFile) (fileIdx n : Nat),
      (runTrace env fileIdx n files).countP isEmit = runViolCount env files := by
  intro files
  induction files with
  | nil => intro fileIdx n; simp [runTrace, runViolCount]
  | cons f fs ih =>
      intro fileIdx n
      simp only [runTrace, List.countP_append, fileTrace_countP_emit, ih]
      simp [runViolCount]

theorem fileTrace_countP_fetch (env : Env) (fileIdx n : Nat) (f : ParsedFile) :
    (fileTrace env fileIdx n f).countP isFetch = 1 := by
  unfold fileTrace
  rw [List.countP_cons]
  have h1 : ((fetch_checks env.bodies env.plugins env.cfg env.runCfgRef n).checks.flatMap
      (checkTrace env.ignore fileIdx f)).countP isFetch = 0 := by
    rw [List.countP_eq_zero]
    intro e he
    obtain ⟨ic, _, he2⟩ := List.mem_flatMap.mp he
    simp [checkTrace_not_fetch env.ignore fileIdx f ic e he2]
  rw [h1]
  simp [isFetch]

theorem runTrace_countP_fetch (env : Env) :
    ∀ (files : List ParsedFile) (fileIdx n : Nat),
      (runTrace env fileIdx n files).countP isFetch = files.length := by
  intro files
  induction files with
  | nil => intro fileIdx n; simp [runTrace]
  | cons f fs ih =>
      intro fileIdx n
      simp only [runTrace, List.countP_append, fileTrace_countP_fetch, ih]
      simp
      omega

/-! ### Run-level trace facts -/

theorem fileTrace_mem (env : Env) (fileIdx n : Nat) (f : ParsedFile) (e : Event)
    (he : e ∈ fileTrace env fileIdx n f) :
    e = .fetch ∨
      ∃ ic ∈ (fetch_checks env.bodies env.plugins env.cfg env.runCfgRef n).checks,
        e ∈ checkTrace env.ignore fileIdx f ic := by
  unfold fileTrace at he
  rcases List.mem_cons.mp he with h1 | h1
  · exact Or.inl h1
  · exact Or.inr (List.mem_flatMap.mp h1)

theorem runTrace_emit_code (env : Env) :
    ∀ (files : List ParsedFile) (fileIdx n : Nat) (e : Event),
      e ∈ runTrace env fileIdx n files → ∀ cd, emitCode e = some cd →
        env.ignore.contains cd = false := by
  intro files
  induction files with
  | nil => intro fileIdx n e he; simp [runTrace] at he
  | cons f fs ih =>
      intro fileIdx n e he cd hcd
      simp only [runTrace] at he
      rcases List.mem_append.mp he with h1 | h1
      · rcases fileTrace_mem env fileIdx n f e h1 with h2 | ⟨ic, _, h3⟩
        · subst h2; simp [emitCode] at hcd
        · rcases (checkTrace_mem _ _ _ _ _ h3).2.2 with ⟨hca, _⟩ | ⟨cd2, hc2, h4⟩ | h4
          · cases e <;> simp_all [callIds, emitCode]
          · rw [hcd] at hc2
            have : cd2 = cd := by injection hc2.symm
            exact this ▸ h4
          · subst h4; simp [emitCode] at hcd
      · exact ih (fileIdx + 1) _ e h1 cd hcd

theorem runTrace_call_reports (env : Env) :
    ∀ (files : List ParsedFile) (fileIdx n : Nat) (e : Event),
      e ∈ runTrace env fileIdx n files →
      ∀ rs, callReports e = some (some rs) →
        rs.all (fun x => env.ignore.contains x) = false := by
  intro files
  induction files with
  | nil => intro fileIdx n e he; simp [runTrace] at he
  | cons f fs ih =>
      intro fileIdx n e he rs hrs
      simp only [runTrace] at he
      rcases List.mem_append.mp he with h1 | h1
      · rcases fileTrace_mem env fileIdx n f e h1 with h2 | ⟨ic, _, h3⟩
        · subst h2; simp [callReports] at hrs
        · obtain ⟨_, hrep, halt⟩ := checkTrace_mem _ _ _ _ _ h3
          rcases halt with ⟨_, hcr⟩ | ⟨cd, hc2, _⟩ | h4
          · rw [hrs] at hcr
            have hrr : ic.check.reports = some rs := by injection hcr.symm
            rw [reportsSkip, hrr] at hrep
            exact hrep
          · cases e <;> simp_all [callReports, emitCode]
          · subst h4; simp [callReports] at hrs
      · exact ih (fileIdx + 1) _ e h1 rs hrs

theorem fileTrace_callIds (env : Env) (fileIdx n : Nat) (f : ParsedFile) (e : Event)
    (he : e ∈ fileTrace env fileIdx n f) (p : Nat × Nat) (hp : callIds e = some p) :
    p.1 = fileIdx ∧ n ≤ p.2 ∧ p.2 < n + numAlloc env := by
  rcases fileTrace_mem env fileIdx n f e he with h1 | ⟨ic, hic, h2⟩
  · subst h1; simp [callIds] at hp
  · rcases (checkTrace_mem _ _ _ _ _ h2).2.2 with ⟨hca, _⟩ | ⟨cd, hc2, _⟩ | h3
    · rw [hp] at hca
      have hpe : p = (fileIdx, ic.instId) := by injection hca
      have hrange := fetch_checks_instId_range env.bodies env.plugins env.cfg
        env.runCfgRef n ic hic
      subst hpe
      simp only [numAlloc]
      exact ⟨by simp, by omega, by omega⟩
    · cases e <;> simp_all [callIds, emitCode]
    · subst h3; simp [callIds] at hp

theorem runTrace_callIds_lower (env : Env) :
    ∀ (files : List ParsedFile) (fileIdx n : Nat) (e : Event),
      e ∈ runTrace env fileIdx n files → ∀ p, callIds e = some p →
        fileIdx ≤ p.1 ∧ n ≤ p.2 := by
  intro files
  induction files with
  | nil => intro fileIdx n e he; simp [runTrace] at he
  | cons f fs ih =>
      intro fileIdx n e he p hp
      simp only [runTrace] at he
      rcases List.mem_append.mp he with h1 | h1
      · have := fileTrace_callIds env fileIdx n f e h1 p hp
        omega
      · have := ih (fileIdx + 1) (n + numAlloc env) e h1 p hp
        omega

theorem runTrace_callIds_inj (env : Env) :
    ∀ (files : List ParsedFile) (fileIdx n : Nat) (e1 e2 : Event),
      e1 ∈ runTrace env fileIdx n files → e2 ∈ runTrace env fileIdx n files →
      ∀ p q, callIds e1 = some p → callIds e2 = some q → p.2 = q.2 → p.1 = q.1 := by
  intro files
  induction files with
  | nil => intro fileIdx n e1 e2 he1; simp [runTrace] at he1
  | cons f fs ih =>
      intro fileIdx n e1 e2 he1 he2 p q hp hq hpq
      simp only [runTrace] at he1 he2
      rcases List.mem_append.mp he1 with h1 | h1 <;>
        rcases List.mem_append.mp he2 with h2 | h2
      · have hb1 := fileTrace_callIds env fileIdx n f e1 h1 p hp
        have hb2 := fileTrace_callIds env fileIdx n f e2 h2 q hq
        omega
      · have hb1 := fileTrace_callIds env fileIdx n f e1 h1 p hp
        have hb2 := runTrace_callIds_lower env fs (fileIdx + 1) (n + numAlloc env)
          e2 h2 q hq
        omega
      · have hb1 := runTrace_callIds_lower env fs (fileIdx + 1) (n + numAlloc env)
          e1 h1 p hp
        have hb2 := fileTrace_callIds env fileIdx n f e2 h2 q hq
        omega
      · exact ih (fileIdx + 1) (n + numAlloc env) e1 e2 h1 h2 p q hp hq hpq

/-! ### Well-formedness of the trace: increments pair with emissions -/

theorem goodTrace_append {a b : List Event} (ha : GoodTrace a) (hb : GoodTrace b) :
    GoodTrace (a ++ b) := by
  induction ha with
  | nil => simpa
  | fetch t _ ih => exact .fetch _ ih
  | callC i a2 nm rs f t _ ih => exact .callC _ _ _ _ _ _ ih
  | callL i a2 nm rs n l t _ ih => exact .callL _ _ _ _ _ _ _ ih
  | emitInc fn ln cd ms nm t _ ih => exact .emitInc _ _ _ _ _ _ ih

theorem violTrace_good (ignore : List String) (fn nm : String) :
    ∀ (vs : List (Nat × String × String)), GoodTrace (violTrace ignore fn nm vs) := by
  intro vs
  induction vs with
  | nil => exact .nil
  | cons v t ih =>
      by_cases hc : ignore.contains v.2.1 = true
      · simp only [violTrace]
        rw [if_pos hc]
        simpa using ih
      · simp only [violTrace]
        rw [if_neg hc]
        simp only [List.cons_append, List.nil_append]
        exact .emitInc _ _ _ _ _ _ ih

theorem lineTrace_good (ignore : List String) (fileIdx iid : Nat) (nm : String)
    (rs : Option (List String)) (fn : String)
    (rIter : String → List (String × String)) :
    ∀ (nls : List (Nat × String)),
      GoodTrace (lineTrace ignore fileIdx iid nm rs fn rIter nls) := by
  intro nls
  induction nls with
  | nil => exact .nil
  | cons nl t ih =>
      simp only [lineTrace, List.cons_append]
      exact .callL _ _ _ _ _ _ _ (goodTrace_append (violTrace_good _ _ _ _) ih)

theorem checkTrace_good (ignore : List String) (fileIdx : Nat) (f : ParsedFile)
    (ic : InstCheck) : GoodTrace (checkTrace ignore fileIdx f ic) := by
  unfold checkTrace
  by_cases hext : extSkip ic.check f = true
  · rw [if_pos hext]; exact .nil
  · rw [if_neg hext]
    by_cases hrep : reportsSkip ignore ic.check = true
    · rw [if_pos hrep]; exact .nil
    · rw [if_neg hrep]
      cases ic.check.kind with
      | content rIter => exact .callC _ _ _ _ _ _ (violTrace_good _ _ _ _)
      | line rIter => exact lineTrace_good _ _ _ _ _ _ _ _
      | unknown d => exact .nil

theorem fileTrace_good (env : Env) (fileIdx n : Nat) (f : ParsedFile) :
    GoodTrace (fileTrace env fileIdx n f) := by
  unfold fileTrace
  refine .fetch _ ?_
  generalize (fetch_checks env.bodies env.plugins env.cfg env.runCfgRef n).checks = l
  induction l with
  | nil => exact .nil
  | cons a t ih =>
      simp only [List.flatMap_cons]
      exact goodTrace_append (checkTrace_good _ _ _ _) ih

theorem runTrace_good (env : Env) :
    ∀ (files : List ParsedFile) (fileIdx n : Nat),
      GoodTrace (runTrace env fileIdx n files) := by
  intro files
  induction files with
  | nil => intro fileIdx n; exact .nil
  | cons f fs ih =>
      intro fileIdx n
      exact goodTrace_append (fileTrace_good env fileIdx n f) (ih _ _)

theorem goodTrace_inc_preceded {l : List Event} (hg : GoodTrace l) :
    ∀ (i : Nat) (nm : String), l.get? i = some (.inc nm) →
      1 ≤ i ∧ ∃ fn ln cd ms, l.get? (i - 1) = some (.emit fn ln cd ms) := by
  induction hg with
  | nil => intro i nm h; simp at h
  | fetch t _ ih =>
      intro i nm h
      cases i with
      | zero => simp [List.get?] at h
      | succ j =>
          rw [List.get?_cons_succ] at h
          obtain ⟨h1, fn, ln, cd, ms, h2⟩ := ih j nm h
          refine ⟨by omega, fn, ln, cd, ms, ?_⟩
          have hj : j = (j - 1) + 1 := by omega
          rw [show j + 1 - 1 = j by omega, hj, List.get?_cons_succ]
          exact h2
  | callC i2 a2 nm2 rs f t _ ih =>
      intro i nm h
      cases i with
      | zero => simp [List.get?] at h
      | succ j =>
          rw [List.get?_cons_succ] at h
          obtain ⟨h1, fn, ln, cd, ms, h2⟩ := ih j nm h
          refine ⟨by omega, fn, ln, cd, ms, ?_⟩
          have hj : j = (j - 1) + 1 := by omega
          rw [show j + 1 - 1 = j by omega, hj, List.get?_cons_succ]
          exact h2
  | callL i2 a2 nm2 rs n2 l2 t _ ih =>
      intro i nm h
      cases i with
      | zero => simp [List.get?] at h
      | succ j =>
          rw [List.get?_cons_succ] at h
          obtain ⟨h1, fn, ln, cd, ms, h2⟩ := ih j nm h
          refine ⟨by omega, fn, ln, cd, ms, ?_⟩
          have hj : j = (j - 1) + 1 := by omega
          rw [show j + 1 - 1 = j by omega, hj, List.get?_cons_succ]
          exact h2
  | emitInc fn ln cd ms nm2 t _ ih =>
      intro i nm h
      match i with
      | 0 => simp [List.get?] at h
      | 1 => exact ⟨le_refl 1, fn, ln, cd, ms, rfl⟩
      | (j + 2) =>
          rw [List.get?_cons_succ, List.get?_cons_succ] at h
          obtain ⟨h1, fn2, ln2, cd2, ms2, h2⟩ := ih j nm h
          refine ⟨by omega, fn2, ln2, cd2, ms2, ?_⟩
          have hj : j = (j - 1) + 1 := by omega
          rw [show j + 2 - 1 = j + 1 by omega, List.get?_cons_succ, hj,
            List.get?_cons_succ]
          exact h2

/-! ### Projections of the per-line dispatch trace -/

theorem violTrace_countP_call (ignore : List String) (fn nm : String)
    (vs : List (Nat × String × String)) :
    (violTrace ignore fn nm vs).countP isCall = 0 := by
  rw [List.countP_eq_zero]
  intro e he
  rcases violTrace_mem ignore fn nm vs e he with ⟨ln, cd, ms, h2, _, _⟩ | h2 <;>
    subst h2 <;> simp [isCall, callIds]

theorem violTrace_filterMap_callLine (ignore : List String) (fn nm : String)
    (vs : List (Nat × String × String)) :
    (violTrace ignore fn nm vs).filterMap callLinePayload = [] := by
  rw [List.filterMap_eq_nil_iff]
  intro e he
  rcases violTrace_mem ignore fn nm vs e he with ⟨ln, cd, ms, h2, _, _⟩ | h2 <;>
    subst h2 <;> rfl

theorem lineTrace_filterMap_callLine (ignore : List String) (fileIdx iid : Nat)
    (nm : String) (rs : Option (List String)) (fn : String)
    (rIter : String → List (String × String)) :
    ∀ (nls : List (Nat × String)),
      (lineTrace ignore fileIdx iid nm rs fn rIter nls).filterMap callLinePayload =
        nls := by
  intro nls
  induction nls with
  | nil => simp [lineTrace]
  | cons nl t ih =>
      simp only [lineTrace, List.cons_append, List.filterMap_cons,
        List.filterMap_append, violTrace_filterMap_callLine, List.nil_append, ih]
      rfl

theorem lineTrace_countP_call (ignore : List String) (fileIdx iid : Nat)
    (nm : String) (rs : Option (List String)) (fn : String)
    (rIter : String → List (String × String)) :
    ∀ (nls : List (Nat × String)),
      (lineTrace ignore fileIdx iid nm rs fn rIter nls).countP isCall =
        nls.length := by
  intro nls
  induction nls with
  | nil => simp [lineTrace]
  | cons nl t ih =>
      simp only [lineTrace, List.cons_append, List.countP_cons, List.countP_append,
        violTrace_countP_call, ih]
      simp [isCall, callIds]

theorem lineTrace_call_mem (ignore : List String) (fileIdx iid : Nat)
    (nm : String) (rs : Option (List String)) (fn : String)
    (rIter : String → List (String × String)) :
    ∀ (nls : List (Nat × String)) (nl : Nat × String), nl ∈ nls →
      Event.callLine fileIdx iid nm rs nl.1 nl.2 ∈
        lineTrace ignore fileIdx iid nm rs fn rIter nls := by
  intro nls
  induction nls with
  | nil => intro nl h; simp at h
  | cons a t ih =>
      intro nl h
      simp only [lineTrace, List.cons_append]
      rcases List.mem_cons.mp h with h1 | h1
      · subst h1
        exact List.mem_cons_self _ _
      · exact List.mem_cons_of_mem _ (List.mem_append_right _ (ih nl h1))

theorem lineTrace_emit_origin (ignore : List String) (fileIdx iid : Nat)
    (nm : String) (rs : Option (List String)) (fn : String)
    (rIter : String → List (String × String)) (nls : List (Nat × String))
    (ln : Nat) (cd ms : String)
    (he : Event.emit fn ln cd ms ∈ lineTrace ignore fileIdx iid nm rs fn rIter nls) :
    ∃ l, (ln, l) ∈ nls ∧ (cd, ms) ∈ rIter l := by
  rcases lineTrace_mem ignore fileIdx iid nm rs fn rIter nls _ he with
    ⟨n, l, _, h2⟩ | ⟨n, l, cd2, ms2, h3, h4, _, h6⟩ | h2
  · exact absurd h2 (by simp)
  · simp only [Event.emit.injEq] at h6
    obtain ⟨-, h7, h8, h9⟩ := h6
    exact ⟨l, h7 ▸ h3, by rw [h8, h9]; exact h4⟩
  · exact absurd h2 (by simp)

/-! ### The claims -/

/-- Claim C2: for every run that completes without a fatal error, `main`
returns exit status 0 when the total violation count (the sum over all
`error_counts` entries) is 0 and 1 otherwise; no other exit status is
produced by the core. -/
theorem c2_exit_status (env : Env) (files : List ParsedFile) (fi : Nat)
    (r : RunResult) (h : runMain env files fi = .ok r) :
    (sumCounts r.counts = 0 → r.exit = 0) ∧
    (sumCounts r.counts ≠ 0 → r.exit = 1) ∧
    (r.exit = 0 ∨ r.exit = 1) ∧
    r.totalErrors = sumCounts r.counts := by
  obtain ⟨-, hc, ht, -, he⟩ := runMain_char env files fi r h
  rw [hc, ht, he]
  by_cases h0 : sumCounts (runCounts env files []) = 0
  · simp [h0]
  · simp [h0]

/-- Witness for C2: the empty run of `env0` exits 0. -/
theorem c2_exit_status_witness :
    runMain env0 [] 0 = .ok runResult0 ∧
    ((sumCounts runResult0.counts = 0 → runResult0.exit = 0) ∧
     (sumCounts runResult0.counts ≠ 0 → runResult0.exit = 1) ∧
     (runResult0.exit = 0 ∨ runResult0.exit = 1) ∧
     runResult0.totalErrors = sumCounts runResult0.counts) :=
  ⟨rfl, c2_exit_status env0 [] 0 runResult0 rfl⟩

/-- Claim C10: a run over zero selected files leaves `error_counts` empty
(no check receives a zero-initialized entry, so no per-check breakdown is
printed), while the summary totals — 0 files scanned, the ignored-file
count, 0 accumulated errors — are still printed and the exit status is 0. -/
theorem c10_empty_run (env : Env) (fi : Nat) :
    runMain env [] fi = .ok ⟨[], [], 0, summaryLines 0 fi [] 0, 0⟩ ∧
    summaryLines 0 fi [] 0 =
      ["========", "Total files scanned = 0",
       s!"Total files ignored = {fi}", "Total accumulated errors = 0"] := by
  constructor
  · rfl
  · rfl

/-- Claim C4, counterexample: with `--max-line-length 100` on the command
line and `max-line-length = 120` in the config file, the merged value is
120 — the config-file value, not the command-line one the claim requires;
likewise for `allow_long_titles` and `verbose`. -/
theorem c4_counterexample :
    cliArgs0.max_line_length = 100 ∧
    fileCfg0.max_line_length = some 120 ∧
    (mergeConfig cliArgs0 fileCfg0).max_line_length = 120 ∧
    ¬(mergeConfig cliArgs0 fileCfg0).max_line_length = cliArgs0.max_line_length ∧
    cliArgs0.allow_long_titles = false ∧
    fileCfg0.allow_long_titles = some true ∧
    (mergeConfig cliArgs0 fileCfg0).allow_long_titles = true ∧
    cliArgs0.verbose = false ∧
    (mergeConfig cliArgs0 fileCfg0).verbose = true := by
  decide

/-- Claim C4 (amended): the effective configuration merges the argparse
result (defaults overridden by given command-line values) with the
config-file values, and for `max_line_length`, `allow_long_titles` and
`verbose` the config-file value wins whenever the config file provides
one; the command-line (or default) value stands only when the config file
is silent. -/
theorem c4_config_file_wins (args : Args) (cfg : FileCfg) :
    (∀ v, cfg.max_line_length = some v → (mergeConfig args cfg).max_line_length = v) ∧
    (cfg.max_line_length = none →
      (mergeConfig args cfg).max_line_length = args.max_line_length) ∧
    (∀ v, cfg.allow_long_titles = some v →
      (mergeConfig args cfg).allow_long_titles = v) ∧
    (cfg.allow_long_titles = none →
      (mergeConfig args cfg).allow_long_titles = args.allow_long_titles) ∧
    (∀ v, cfg.verbose = some v → (mergeConfig args cfg).verbose = v) ∧
    (cfg.verbose = none → (mergeConfig args cfg).verbose = args.verbose) := by
  refine ⟨fun v hv => ?_, fun hv => ?_, fun v hv => ?_, fun hv => ?_,
    fun v hv => ?_, fun hv => ?_⟩ <;> simp [mergeConfig, hv]

/-- Witness for C4 (amended) at the concrete counterexample input. -/
theorem c4_config_file_wins_witness :
    fileCfg0.max_line_length = some 120 ∧
    (mergeConfig cliArgs0 fileCfg0).max_line_length = 120 :=
  ⟨rfl, (c4_config_file_wins cliArgs0 fileCfg0).1 120 rfl⟩

/-- Claim C5: a check that is neither a `ContentCheck` nor a `LineCheck`
aborts the run with a fatal error as soon as the dispatch loop reaches it
(both gates passing on some selected file); the aborted run produces no
`RunResult` — hence no summary — and is distinguishable from a normal
zero-violation completion. -/
theorem c5_unknown_kind_fatal (env : Env) (files : List ParsedFile) (fi : Nat)
    (h : ∃ f ∈ files, ∃ c ∈ allCheckVals env.bodies env.plugins env.cfg,
      extSkip c f = false ∧ reportsSkip env.ignore c = false ∧
      ∃ d, c.kind = .unknown d) :
    (∃ e, runMain env files fi = .error e) ∧
    ∀ r : RunResult, runMain env files fi ≠ .ok r := by
  have hbad : ∃ f ∈ files, ∃ c ∈ allCheckVals env.bodies env.plugins env.cfg,
      checkFatal env.ignore f c = true := by
    obtain ⟨f, hf, c, hc, h1, h2, d, h3⟩ := h
    exact ⟨f, hf, c, hc, by simp [checkFatal, h1, h2, h3, isUnknownKind]⟩
  obtain ⟨e, he⟩ := runFiles_err env files hbad 0 ⟨[], [], env.runCfgRef + 1⟩
  have hm := runMain_of_runFiles_err env files fi e he
  refine ⟨⟨e, hm⟩, fun r hr => ?_⟩
  rw [hm] at hr
  exact absurd hr (by simp)

/-- Witness for C5: a plugin delivering an unknown-kind object makes the
concrete run abort. -/
theorem c5_unknown_kind_fatal_witness :
    (plugUnknown cfg0).kind = .unknown "Weird" ∧
    extSkip (plugUnknown cfg0) f0 = false ∧
    reportsSkip envC5.ignore (plugUnknown cfg0) = false ∧
    (∃ e, runMain envC5 [f0] 0 = .error e) := by
  refine ⟨rfl, rfl, rfl, ?_⟩
  refine (c5_unknown_kind_fatal envC5 [f0] 0
    ⟨f0, List.mem_cons_self f0 [], plugUnknown cfg0, ?_, rfl, rfl, "Weird", rfl⟩).1
  simp [allCheckVals, envC5]

/-- Claim C1: for every run, no violation with a code in the configured
ignore set is ever emitted to output, every counted violation is an
emitted one (so none is counted either), and no check whose declared
`reports` set is entirely contained in the ignore set is ever dispatched —
no `report_iter` invocation event of such a check appears in the trace,
for any file. -/
theorem c1_ignore_completeness (env : Env) (files : List ParsedFile) (fi : Nat)
    (r : RunResult) (h : runMain env files fi = .ok r) :
    (∀ e ∈ r.events, ∀ cd, emitCode e = some cd →
      env.ignore.contains cd = false) ∧
    (∀ e ∈ r.events, ∀ rs, callReports e = some (some rs) →
      rs.all (fun x => env.ignore.contains x) = false) ∧
    sumCounts r.counts = (r.events.filter isEmit).length := by
  obtain ⟨hev, hc, -, -, -⟩ := runMain_char env files fi r h
  refine ⟨?_, ?_, ?_⟩
  · intro e he cd hcd
    rw [hev] at he
    exact runTrace_emit_code env files 0 (env.runCfgRef + 1) e he cd hcd
  · intro e he rs hrs
    rw [hev] at he
    exact runTrace_call_reports env files 0 (env.runCfgRef + 1) e he rs hrs
  · rw [hev, hc, ← List.countP_eq_length_filter, runTrace_countP_emit]
    have hs := runCounts_sum env files [] (by simp [countsWF])
    simpa [sumCounts] using hs

/-- Witness for C1 at the concrete run of `envC8` over `[f0]`, where every
declared code is ignored. -/
theorem c1_ignore_completeness_witness :
    runMain envC8 [f0] 0 = .ok runResultC8 ∧
    ((∀ e ∈ runResultC8.events, ∀ cd, emitCode e = some cd →
       envC8.ignore.contains cd = false) ∧
     (∀ e ∈ runResultC8.events, ∀ rs, callReports e = some (some rs) →
       rs.all (fun x => envC8.ignore.contains x) = false) ∧
     sumCounts runResultC8.counts = (runResultC8.events.filter isEmit).length) :=
  ⟨rfl, c1_ignore_completeness envC8 [f0] 0 runResultC8 rfl⟩

/-- Claim C3: the number of violations printed equals the sum of the
`error_counts` values; once any file is processed, every check of the
registry has a (non-negative, `Nat`-valued) entry in `error_counts` even
if it emitted nothing — the entry is created before any dispatch decision;
and every counter increment immediately follows the emission of the
violation that caused it, so each violation is emitted before its check's
count is incremented. -/
theorem c3_count_accounting (env : Env) (files : List ParsedFile) (fi : Nat)
    (r : RunResult) (h : runMain env files fi = .ok r) :
    ((r.events.filter isEmit).length = sumCounts r.counts) ∧
    (files ≠ [] → ∀ c ∈ allCheckVals env.bodies env.plugins env.cfg,
      countsHasKey r.counts c.name = true) ∧
    (∀ (i : Nat) (nm : String), r.events.get? i = some (.inc nm) →
      1 ≤ i ∧ ∃ fn ln cd ms, r.events.get? (i - 1) = some (.emit fn ln cd ms)) := by
  obtain ⟨hev, hc, -, -, -⟩ := runMain_char env files fi r h
  refine ⟨?_, ?_, ?_⟩
  · rw [hev, hc, ← List.countP_eq_length_filter, runTrace_countP_emit]
    have hs := runCounts_sum env files [] (by simp [countsWF])
    simpa [sumCounts] using hs.symm
  · intro hne c hcv
    rw [hc]
    cases files with
    | nil => exact absurd rfl hne
    | cons f fs => exact runCounts_hasKey env f fs [] c hcv
  · intro i nm h2
    rw [hev] at h2 ⊢
    exact goodTrace_inc_preceded (runTrace_good env files 0 (env.runCfgRef + 1)) i nm h2

/-- Witness for C3 at the concrete run of `env0` over `[f0]`, which emits
one violation. -/
theorem c3_count_accounting_witness :
    runMain env0 [f0] 0 = .ok runResultF0 ∧
    (((runResultF0.events.filter isEmit).length = sumCounts runResultF0.counts) ∧
     ([f0] ≠ ([] : List ParsedFile) →
       ∀ c ∈ allCheckVals env0.bodies env0.plugins env0.cfg,
         countsHasKey runResultF0.counts c.name = true) ∧
     (∀ (i : Nat) (nm : String),
        runResultF0.events.get? i = some (.inc nm) →
        1 ≤ i ∧ ∃ fn ln cd ms,
          runResultF0.events.get? (i - 1) = some (.emit fn ln cd ms))) :=
  ⟨rfl, c3_count_accounting env0 [f0] 0 runResultF0 rfl⟩

/-- Claim C9: the registry is rebuilt for every file — the trace carries
exactly one `fetch_checks` marker per selected file — and no check
instance is shared between two files: any two `report_iter` invocation
events bearing the same instance reference belong to the same file. -/
theorem c9_fresh_checks_per_file (env : Env) (files : List ParsedFile) (fi : Nat)
    (r : RunResult) (h : runMain env files fi = .ok r) :
    ((r.events.filter isFetch).length = files.length) ∧
    (∀ e1 ∈ r.events, ∀ e2 ∈ r.events, ∀ p q, callIds e1 = some p →
      callIds e2 = some q → p.2 = q.2 → p.1 = q.1) := by
  obtain ⟨hev, -, -, -, -⟩ := runMain_char env files fi r h
  constructor
  · rw [hev, ← List.countP_eq_length_filter, runTrace_countP_fetch]
  · intro e1 he1 e2 he2 p q hp hq hpq
    rw [hev] at he1 he2
    exact runTrace_callIds_inj env files 0 (env.runCfgRef + 1) e1 e2 he1 he2
      p q hp hq hpq

/-- Witness for C9 at the concrete run of `env0` over two files. -/
theorem c9_fresh_checks_per_file_witness :
    runMain env0 [f1, f1] 0 = .ok runResultF11 ∧
    (((runResultF11.events.filter isFetch).length = [f1, f1].length) ∧
     (∀ e1 ∈ runResultF11.events, ∀ e2 ∈ runResultF11.events, ∀ p q,
        callIds e1 = some p → callIds e2 = some q → p.2 = q.2 → p.1 = q.1)) :=
  ⟨rfl, c9_fresh_checks_per_file env0 [f1, f1] 0 runResultF11 rfl⟩

/-- Claim C6: every `fetch_checks` call yields the five built-in checks
first — validity, trailing-whitespace, no-tab-indentation,
no-carriage-return, max-line-length, in that fixed order — followed by the
discovered plugins in discovery order; the built-ins hold the run's shared
configuration object, while every plugin is instantiated with the
`cfg.copy()` object: a distinct reference whose value equals the
configuration. -/
theorem c6_registry_order (b : CheckBodies) (plugins : List (RunCfg → Check))
    (cfg : RunCfg) (runCfgRef n : Nat) (h : runCfgRef < n) :
    ((fetch_checks b plugins cfg runCfgRef n).checks.map (fun ic => ic.check.name) =
      ["CheckValidity", "CheckTrailingWhitespace", "CheckIndentationNoTab",
       "CheckCarriageReturn", "CheckMaxLineLength"] ++
        plugins.map (fun p => (p cfg).name)) ∧
    (((fetch_checks b plugins cfg runCfgRef n).checks.take 5).map
        (fun ic => ic.cfgRef) = List.replicate 5 runCfgRef) ∧
    (((fetch_checks b plugins cfg runCfgRef n).checks.drop 5).map
        (fun ic => ic.check) = plugins.map (fun p => p cfg)) ∧
    (∀ ic ∈ (fetch_checks b plugins cfg runCfgRef n).checks.drop 5,
      ic.cfgRef = (fetch_checks b plugins cfg runCfgRef n).copyRef) ∧
    (fetch_checks b plugins cfg runCfgRef n).copyVal = cfg ∧
    (fetch_checks b plugins cfg runCfgRef n).copyRef ≠ runCfgRef := by
  have h2 : (allocAddons cfg (n + 5) plugins (n + 6)).map (fun ic => ic.check.name) =
      plugins.map (fun p => (p cfg).name) := by
    have h3 := congrArg (List.map (fun c : Check => c.name))
      (allocAddons_map_check cfg (n + 5) plugins (n + 6))
    simpa [List.map_map, Function.comp] using h3
  refine ⟨?_, rfl, ?_, ?_, rfl, ?_⟩
  · show "CheckValidity" :: "CheckTrailingWhitespace" :: "CheckIndentationNoTab" ::
      "CheckCarriageReturn" :: "CheckMaxLineLength" ::
        (allocAddons cfg (n + 5) plugins (n + 6)).map (fun ic => ic.check.name) = _
    rw [h2]
    rfl
  · show (allocAddons cfg (n + 5) plugins (n + 6)).map (fun ic => ic.check) = _
    exact allocAddons_map_check cfg (n + 5) plugins (n + 6)
  · intro ic hic
    exact allocAddons_cfgRef cfg (n + 5) plugins (n + 6) ic hic
  · show n + 5 ≠ runCfgRef
    omega

/-- Witness for C6 with one concrete plugin and counter 1 for a run
configuration at reference 0. -/
theorem c6_registry_order_witness :
    0 < 1 ∧
    (fetch_checks bodies0 [plug0] cfg0 0 1).checks.map (fun ic => ic.check.name) =
      ["CheckValidity", "CheckTrailingWhitespace", "CheckIndentationNoTab",
       "CheckCarriageReturn", "CheckMaxLineLength"] ++
        [plug0].map (fun p => (p cfg0).name) :=
  ⟨by decide, (c6_registry_order bodies0 [plug0] cfg0 0 1 (by decide)).1⟩

/-- Claim C7: a dispatched `ContentCheck` has `report_iter` called exactly
once, with the whole parsed file, its findings carrying their own line
numbers; a dispatched `LineCheck` has `report_iter` called exactly once
per line of the file's 1-based enumerated line sequence, and every emitted
finding carries the enumerated line number of the line that produced it. -/
theorem c7_dispatch_protocol (ignore : List String) (fileIdx : Nat)
    (f : ParsedFile) (ic : InstCheck) (st : RunState)
    (hext : extSkip ic.check f = false)
    (hrep : reportsSkip ignore ic.check = false) :
    (∀ rIter, ic.check.kind = .content rIter →
       processCheck ignore fileIdx f ic st =
         .ok ⟨st.events ++
              Event.callContent fileIdx ic.instId ic.check.name ic.check.reports f ::
                violTrace ignore f.filename ic.check.name (rIter f),
              countsAddN ic.check.name (countsSetdefault st.counts ic.check.name)
                (violCount ignore (rIter f)), st.nextId⟩ ∧
       (violTrace ignore f.filename ic.check.name (rIter f)).countP isCall = 0) ∧
    (∀ rIter, ic.check.kind = .line rIter →
       processCheck ignore fileIdx f ic st =
         .ok ⟨st.events ++ lineTrace ignore fileIdx ic.instId ic.check.name
                ic.check.reports f.filename rIter (f.lines.enumFrom 1),
              countsAddN ic.check.name (countsSetdefault st.counts ic.check.name)
                (lineViolCount ignore rIter (f.lines.enumFrom 1)), st.nextId⟩ ∧
       (lineTrace ignore fileIdx ic.instId ic.check.name ic.check.reports
          f.filename rIter (f.lines.enumFrom 1)).filterMap callLinePayload =
         f.lines.enumFrom 1 ∧
       (lineTrace ignore fileIdx ic.instId ic.check.name ic.check.reports
          f.filename rIter (f.lines.enumFrom 1)).countP isCall =
         (f.lines.enumFrom 1).length ∧
       (∀ (ln : Nat) (cd ms : String),
          Event.emit f.filename ln cd ms ∈
            lineTrace ignore fileIdx ic.instId ic.check.name ic.check.reports
              f.filename rIter (f.lines.enumFrom 1) →
          ∃ l, (ln, l) ∈ f.lines.enumFrom 1 ∧ (cd, ms) ∈ rIter l)) := by
  constructor
  · intro rIter hk
    have hfatal : checkFatal ignore f ic.check = false := by
      simp [checkFatal, hk, isUnknownKind]
    refine ⟨?_, violTrace_countP_call ignore f.filename ic.check.name (rIter f)⟩
    rw [processCheck_ok ignore fileIdx f ic st hfatal]
    simp [checkTrace, checkViolCount, applyCheckCounts, hext, hrep, hk]
  · intro rIter hk
    have hfatal : checkFatal ignore f ic.check = false := by
      simp [checkFatal, hk, isUnknownKind]
    refine ⟨?_,
      lineTrace_filterMap_callLine ignore fileIdx ic.instId ic.check.name
        ic.check.reports f.filename rIter (f.lines.enumFrom 1),
      lineTrace_countP_call ignore fileIdx ic.instId ic.check.name
        ic.check.reports f.filename rIter (f.lines.enumFrom 1),
      fun ln cd ms he =>
        lineTrace_emit_origin ignore fileIdx ic.instId ic.check.name
          ic.check.reports f.filename rIter (f.lines.enumFrom 1) ln cd ms he⟩
    rw [processCheck_ok ignore fileIdx f ic st hfatal]
    simp [checkTrace, checkViolCount, applyCheckCounts, hext, hrep, hk]

/-- Witness for C7: dispatching the concrete line check `c7ic` on `f0`. -/
theorem c7_dispatch_protocol_witness :
    extSkip c7ic.check f0 = false ∧ reportsSkip [] c7ic.check = false ∧
    c7ic.check.kind = .line c7rIter ∧
    processCheck [] 0 f0 c7ic st0 =
      .ok ⟨st0.events ++ lineTrace [] 0 c7ic.instId c7ic.check.name
             c7ic.check.reports f0.filename c7rIter (f0.lines.enumFrom 1),
           countsAddN c7ic.check.name (countsSetdefault st0.counts c7ic.check.name)
             (lineViolCount [] c7rIter (f0.lines.enumFrom 1)), st0.nextId⟩ ∧
    (lineTrace [] 0 c7ic.instId c7ic.check.name c7ic.check.reports f0.filename
       c7rIter (f0.lines.enumFrom 1)).filterMap callLinePayload =
      f0.lines.enumFrom 1 :=
  ⟨rfl, rfl, rfl,
   ((c7_dispatch_protocol [] 0 f0 c7ic st0 rfl rfl).2 c7rIter rfl).1,
   ((c7_dispatch_protocol [] 0 f0 c7ic st0 rfl rfl).2 c7rIter rfl).2.1⟩

/-- Claim C8, counterexample: the plugin check `plug0` declares no
extension matcher, yet in the run of `envC8` over `[f0]` — where every
code it declares is globally ignored — it is never dispatched: the run's
trace contains no `report_iter` invocation at all.  A matcher-free check
is therefore not dispatched for files of every extension, contrary to the
claim's second half. -/
theorem c8_counterexample :
    (plug0 cfg0).extMatcher = none ∧
    runMain envC8 [f0] 0 = .ok runResultC8 ∧
    runResultC8.events.filter isCall = [] :=
  ⟨rfl, rfl, rfl⟩

/-- Claim C8 (amended): a check declaring an extension matcher that the
file's extension does not satisfy is not dispatched at all for that file —
its `report_iter` is never called on the file or any of its lines, and
only the zero-entry registration of its name happens; a check declaring no
extension matcher is never skipped by the extension gate: provided its
declared `reports` set is not entirely contained in the ignore set, it is
dispatched for files of every extension (its `report_iter` invocation on
the whole file, or on every enumerated line, appears in the trace). -/
theorem c8_extension_gating (ignore : List String) (fileIdx : Nat)
    (f : ParsedFile) (ic : InstCheck) (st : RunState) :
    (∀ m, ic.check.extMatcher = some m → m f.extension = false →
       processCheck ignore fileIdx f ic st =
         .ok { st with counts := countsSetdefault st.counts ic.check.name }) ∧
    (ic.check.extMatcher = none → reportsSkip ignore ic.check = false →
       ∀ X, processCheck ignore fileIdx f ic st = .ok X →
         (∀ rIter, ic.check.kind = .content rIter →
            Event.callContent fileIdx ic.instId ic.check.name ic.check.reports f ∈
              X.events) ∧
         (∀ rIter, ic.check.kind = .line rIter →
            ∀ nl ∈ f.lines.enumFrom 1,
              Event.callLine fileIdx ic.instId ic.check.name ic.check.reports
                nl.1 nl.2 ∈ X.events)) := by
  constructor
  · intro m hm hmf
    have hskip : extSkip ic.check f = true := by
      simp [extSkip, hm, hmf]
    simp [processCheck, hskip]
  · intro hm hrep X hX
    have hext : extSkip ic.check f = false := by simp [extSkip, hm]
    constructor
    · intro rIter hk
      have hfatal : checkFatal ignore f ic.check = false := by
        simp [checkFatal, hk, isUnknownKind]
      rw [processCheck_ok ignore fileIdx f ic st hfatal] at hX
      simp only [Except.ok.injEq] at hX
      subst hX
      have hct : checkTrace ignore fileIdx f ic =
          Event.callContent fileIdx ic.instId ic.check.name ic.check.reports f ::
            violTrace ignore f.filename ic.check.name (rIter f) := by
        simp [checkTrace, hext, hrep, hk]
      show _ ∈ st.events ++ checkTrace ignore fileIdx f ic
      rw [hct]
      exact List.mem_append_right _ (List.mem_cons_self _ _)
    · intro rIter hk nl hnl
      have hfatal : checkFatal ignore f ic.check = false := by
        simp [checkFatal, hk, isUnknownKind]
      rw [processCheck_ok ignore fileIdx f ic st hfatal] at hX
      simp only [Except.ok.injEq] at hX
      subst hX
      have hct : checkTrace ignore fileIdx f ic =
          lineTrace ignore fileIdx ic.instId ic.check.name ic.check.reports
            f.filename rIter (f.lines.enumFrom 1) := by
        simp [checkTrace, hext, hrep, hk]
      show _ ∈ st.events ++ checkTrace ignore fileIdx f ic
      rw [hct]
      exact List.mem_append_right _
        (lineTrace_call_mem ignore fileIdx ic.instId ic.check.name
          ic.check.reports f.filename rIter (f.lines.enumFrom 1) nl hnl)

/-- Witness for C8 (amended): the always-rejecting matcher of `c8ic` stops
its dispatch on `f0`, while the matcher-free `c7ic` is dispatched on every
line of `f0`. -/
theorem c8_extension_gating_witness :
    c8ic.check.extMatcher = some (fun _ => false) ∧
    ((fun _ : String => false) f0.extension = false) ∧
    processCheck [] 0 f0 c8ic st0 =
      .ok { st0 with counts := countsSetdefault st0.counts c8ic.check.name } ∧
    c7ic.check.extMatcher = none ∧
    reportsSkip [] c7ic.check = false ∧
    processCheck [] 0 f0 c7ic st0 = .ok c7X ∧
    Event.callLine 0 c7ic.instId c7ic.check.name c7ic.check.reports 1 "bad " ∈
      c7X.events :=
  ⟨rfl, rfl,
   (c8_extension_gating [] 0 f0 c8ic st0).1 (fun _ => false) rfl rfl,
   rfl, rfl, rfl,
   ((c8_extension_gating [] 0 f0 c7ic st0).2 rfl rfl c7X rfl).2 c7rIter rfl
     (1, "bad ") (by decide)⟩

end Doc8
